import Mathlib

/-! A shallow embedding of `src/procinfo.c`, the process-information reader.

Files and C strings are lists of characters (one `Char` per byte; the code only
compares bytes with ASCII constants).  A C string is the part of a buffer before
its first NUL byte.  `long` and `int` values are `Int`, `unsigned long long`
values are `Nat`; conversions that leave the range of the C type follow glibc
(`strtol` saturates, `strtoull` saturates or wraps a negated value, the cast to
`int` keeps the low 32 bits).
-/

namespace Procinfo

/-! ## C library -/

/-- The byte that terminates a C string. -/
def NUL : Char := Char.ofNat 0

/-- The C string held at the start of a buffer: the bytes before the first NUL. -/
def cstr (buf : List Char) : List Char :=
  buf.takeWhile (fun c => c != NUL)

/-- C `isdigit` in the "C" locale. -/
def isdigit (c : Char) : Bool :=
  decide (48 ≤ c.toNat) && decide (c.toNat ≤ 57)

/-- C `isspace` in the "C" locale: space, `\t`, `\n`, `\v`, `\f`, `\r`. -/
def isspace (c : Char) : Bool :=
  c == ' ' || (decide (9 ≤ c.toNat) && decide (c.toNat ≤ 13))

/-- The largest `long` (64 bit). -/
def LONG_MAX : Int := 2 ^ 63 - 1

/-- The smallest `long` (64 bit). -/
def LONG_MIN : Int := -(2 ^ 63)

/-- The largest `unsigned long long` (64 bit). -/
def ULLONG_MAX : Nat := 2 ^ 64 - 1

/-- The largest `int` (32 bit). -/
def INT_MAX : Int := 2 ^ 31 - 1

/-- The smallest `int` (32 bit). -/
def INT_MIN : Int := -(2 ^ 31)

/-- Value of a run of decimal digits, most significant first. -/
def decval (ds : List Char) : Nat :=
  ds.foldl (fun acc c => 10 * acc + (c.toNat - 48)) 0

/-- The subject sequence of a base-10 integer conversion, shared by `strtol`,
`strtoull` and the `%ld` / `%llu` conversions of `scanf`: white space is
skipped, one optional sign is taken, then the longest run of digits.  The result
is `none` when there is no digit; otherwise it is the sign (`true` for `-`), the
magnitude and the input left after the digits. -/
def scan_number (s : List Char) : Option (Bool × Nat × List Char) :=
  match s.dropWhile isspace with
  | [] => none
  | c :: t =>
    let body := if c == '-' || c == '+' then t else c :: t
    let ds := body.takeWhile isdigit
    if ds.isEmpty then none else some (c == '-', decval ds, body.dropWhile isdigit)

/-- The `long` that `strtol` returns for a sign and a magnitude (saturating). -/
def strtol_val (neg : Bool) (mag : Nat) : Int :=
  if neg then max LONG_MIN (-(mag : Int)) else min LONG_MAX (mag : Int)

/-- The `unsigned long long` that `strtoull` returns for a sign and a magnitude:
`ULLONG_MAX` on overflow, the negation modulo `2^64` for a `-` sign. -/
def strtoull_val (neg : Bool) (mag : Nat) : Nat :=
  if ULLONG_MAX < mag then ULLONG_MAX
  else if neg then (2 ^ 64 - mag) % 2 ^ 64 else mag

/-- C `strtol(p, NULL, 10)`: `0` when no conversion can be made. -/
def strtol (p : List Char) : Int :=
  match scan_number p with
  | none => 0
  | some (neg, mag, _) => strtol_val neg mag

/-- Conversion of a `long` to `int`: the low 32 bits, two's complement. -/
def long_to_int (v : Int) : Int :=
  (v + 2 ^ 31) % 2 ^ 32 - 2 ^ 31

/-- C `atoi`, which glibc defines as `(int) strtol(s, NULL, 10)`. -/
def atoi (s : List Char) : Int :=
  long_to_int (strtol s)

/-- C `strrchr(s, c)` for `c ≠ NUL`: the tail of `s` that starts at the last
occurrence of `c`, or `none` (a null pointer) when `c` does not occur. -/
def strrchr : List Char → Char → Option (List Char)
  | [], _ => none
  | x :: t, c =>
    match strrchr t c with
    | some r => some r
    | none => if x = c then some (x :: t) else none

/-- The successive buffers that `getline` returns on a stream: each line with
its terminating newline, and a last line without one when the stream does not
end in a newline.  The empty stream has no line (`getline` returns `-1`). -/
def getlines : List Char → List (List Char)
  | [] => []
  | c :: t =>
    if c = '\n' then [c] :: getlines t
    else
      match getlines t with
      | [] => [[c]]
      | l :: ls => (c :: l) :: ls

/-- The leading run of non-space bytes of a string, and the tokens that follow
the run. -/
def strtok_runs : List Char → List Char × List (List Char)
  | [] => ([], [])
  | c :: t =>
    let r := strtok_runs t
    if c = ' ' then ([], if r.1.isEmpty then r.2 else r.1 :: r.2)
    else (c :: r.1, r.2)

/-- The successive tokens that `strtok_r(tmp, " ", &save)`,
`strtok_r(NULL, " ", &save)`, ... return on a string: its maximal runs of
non-space bytes, in order.  Empty runs are never returned. -/
def strtok_all (s : List Char) : List (List Char) :=
  let r := strtok_runs s
  if r.1.isEmpty then r.2 else r.1 :: r.2

/-! ## `sscanf` with the format of `read_stat` -/

/-- The two integer conversions of the format. -/
inductive Conv where
  | ld
  | llu
  deriving DecidableEq, Repr

/-- The value a conversion stores for a scanned sign and magnitude. -/
def Conv.store : Conv → Bool → Nat → Int
  | .ld, neg, mag => strtol_val neg mag
  | .llu, neg, mag => (strtoull_val neg mag : Int)

/-- The conversions after `%c` in
`"%c %ld %ld %ld %ld %ld %llu %llu %llu %llu %llu %llu %llu"`. -/
def stat_format : List Conv :=
  [.ld, .ld, .ld, .ld, .ld, .llu, .llu, .llu, .llu, .llu, .llu, .llu]

/-- Run the directives `" %ld"` / `" %llu"` in order and collect the stored
values; scanning stops at the first directive that finds no number.  (The blank
of the format and the conversion itself both skip white space, which
`scan_number` does.) -/
def scan_fields : List Conv → List Char → List Int
  | [], _ => []
  | cv :: cvs, s =>
    match scan_number s with
    | none => []
    | some (neg, mag, s1) => cv.store neg mag :: scan_fields cvs s1

/-- The call `sscanf(rest, "%c %ld ... %llu", &state, &ppid, ...)`: the return
value `got`, the byte stored by `%c` and the integers stored after it.  On empty
input `%c` fails before any conversion and the call returns `EOF` (`-1`). -/
def sscanf_stat (rest : List Char) : Int × Char × List Int :=
  match rest with
  | [] => (-1, NUL, [])
  | c :: t =>
    let vs := scan_fields stat_format t
    (1 + (vs.length : Int), c, vs)

/-! ## procinfo.c -/

/-- The function `isnum`: walk the string up to its terminator, answer `0` at
the first non-digit and `1` when the terminator is reached. -/
def isnum : List Char → Bool
  | [] => true
  | c :: s => if c = NUL then true else if !isdigit c then false else isnum s

/-- The loop of `parse_processor_from_rest` over the tokens:
`while (tok) { if (idx == want_index) return atoi(tok); idx++; tok = strtok_r(...); }`
followed by `return -1`. -/
def processor_loop : List (List Char) → Nat → Int
  | [], _ => -1
  | tok :: more, idx => if idx = 36 then atoi tok else processor_loop more (idx + 1)

/-- The function `parse_processor_from_rest` (allocation by `strdup` is assumed
to succeed): the token loop starts at `idx = 0` on a copy of the C string. -/
def parse_processor_from_rest (rest : List Char) : Int :=
  processor_loop (strtok_all (cstr rest)) 0

/-- The ways a read of a `/proc` file ends the program with status 1. -/
inductive Failure where
  | open_failed (errno : Nat)
  | read_failed
  | unexpected_format
  | could_not_parse (got : Int)
  deriving DecidableEq, Repr

/-- Result of a step that either yields a value or exits. -/
inductive Outcome (α : Type) where
  | ok (val : α)
  | exit (why : Failure)
  deriving DecidableEq, Repr

/-- The values `read_stat` hands back through its out-parameters. -/
structure Stat where
  state : Char
  ppid : Int
  utime : Nat
  stime : Nat
  processor : Int
  deriving DecidableEq, Repr

/-- The part of `read_stat` that follows the format check (lines 88-119), on the
text `rest` after `") "`: the `sscanf` call, the test `got != 13`, the
processor lookup and the assignment of the out-parameters. -/
def read_stat_rest (rest : List Char) : Outcome Stat :=
  let r := sscanf_stat rest
  if r.1 ≠ 13 then .exit (.could_not_parse r.1)
  else
    .ok { state := r.2.1
          ppid := r.2.2.getD 0 (-1)
          utime := (r.2.2.getD 10 0).toNat
          stime := (r.2.2.getD 11 0).toNat
          processor := parse_processor_from_rest rest }

/-- The function `read_stat` on the bytes of the opened file (lines 63-119; the
failure of `fopen` is handled by `open_fail` in the model of `main`).  `getline`
fails on an empty stream; `strrchr` and the test `rp[1] != ' '` work on the C
string in the line buffer; `rest` is `rp + 2`. -/
def read_stat (content : List Char) : Outcome Stat :=
  match getlines content with
  | [] => .exit .read_failed
  | buf :: _ =>
    match strrchr (cstr buf) ')' with
    | none => .exit .unexpected_format
    | some rp =>
      if rp.tail.head? ≠ some ' ' then .exit .unexpected_format
      else read_stat_rest (rp.drop 2)

/-- The replacement loop of `read_cmdline`: every NUL becomes a space. -/
def nul_to_space (buf : List Char) : List Char :=
  buf.map (fun c => if c = NUL then ' ' else c)

/-- The trimming loop of `read_cmdline`:
`while (n > 0 && buf[n - 1] == ' ') { buf[n - 1] = '\0'; n--; }`; the result is
the final `n`. -/
def trim_loop (buf : List Char) : Nat → Nat
  | 0 => 0
  | n + 1 => if buf.getD n NUL = ' ' then trim_loop buf n else n + 1

/-- The function `read_cmdline` on the bytes of the opened file: the C string
left in `buf`.  `fread` stores at most `bufsz - 1` bytes; `snprintf` stores at
most `bufsz - 1` bytes of the placeholder; the trimming loop reads only bytes it
has not overwritten. -/
def read_cmdline (blob : List Char) (bufsz : Nat) : List Char :=
  let buf := blob.take (bufsz - 1)
  let n := buf.length
  if n = 0 then "(empty)".toList.take (bufsz - 1)
  else
    let buf1 := nul_to_space buf
    cstr (buf1.take (trim_loop buf1 n))

/-- The loop of `read_vmrss_kb` over the lines that `getline` returns. -/
def vmrss_loop : List (List Char) → Int
  | [] => -1
  | buf :: more =>
    let line := cstr buf
    if line.take 6 = "VmRSS:".toList then
      let p := (line.drop 6).dropWhile (fun c => !isdigit c)
      if p.isEmpty then -1 else strtol p
    else vmrss_loop more

/-- The function `read_vmrss_kb` on the bytes of the opened file. -/
def read_vmrss_kb (content : List Char) : Int :=
  vmrss_loop (getlines content)


/-! ## The program -/

/-- The `errno` of a missing file. -/
def ENOENT : Nat := 2

/-- The `errno` of a file that may not be read. -/
def EACCES : Nat := 13

/-- What `main` sees of the system: for each path the outcome of `fopen` (the
bytes of the file, or `errno`), and the value of `sysconf(_SC_CLK_TCK)`. -/
structure Env where
  fopen : List Char → Except Nat (List Char)
  clk_tck : Int

/-- The six printed lines: `PID`, `State`, `PPID`, `Cmd`, `CPU` (processor and
seconds) and `VmRSS`.  `cpu_sec` is the value of the `double` that `main`
computes, as a rational; `printf` then prints it with three decimals. -/
structure Report where
  pid : List Char
  state : Char
  ppid : Int
  cmd : List Char
  processor : Int
  cpu_sec : ℚ
  vmrss_kb : Int
  deriving DecidableEq

/-- How a run of `procinfo` ends: `usage` (exit 1), a failed read of a file
(exit 1), or the printed report (exit 0). -/
inductive Run where
  | usage
  | failed (path : List Char) (why : Failure)
  | report (r : Report)
  deriving DecidableEq

/-- Exit status of a run. -/
def Run.status : Run → Nat
  | .report _ => 0
  | _ => 1

/-- Round to the nearest integer, ties to the even one. -/
def round_even (y : ℚ) : Int :=
  if y - ⌊y⌋ < 1 / 2 then ⌊y⌋
  else if 1 / 2 < y - ⌊y⌋ then ⌊y⌋ + 1
  else if ⌊y⌋ % 2 = 0 then ⌊y⌋ else ⌊y⌋ + 1

/-- Rounding to `double` (IEEE 754 binary64, round to nearest, ties to even):
the nearest value with 53 significant bits.  A conversion to `double` and a
`double` division yield the rounded exact result.  The limits of the exponent
are not modelled; the values that occur in `main` (zero, or between `2^-63` and
`2^64`) stay far inside them. -/
def to_double (x : ℚ) : ℚ :=
  if x = 0 then 0
  else (round_even (x / 2 ^ (Int.log 2 |x| - 52)) : ℚ) * 2 ^ (Int.log 2 |x| - 52)

/-- The statement `if (ticks > 0) cpu_sec = (utime + stime) / (double)ticks;`
after `double cpu_sec = 0.0;`: the sum is taken in `unsigned long long`
(modulo `2^64`) and converted to `double`, `ticks` is converted to `double`,
and the two are divided in `double`. -/
def cpu_seconds (utime stime : Nat) (ticks : Int) : ℚ :=
  if 0 < ticks then
    to_double (to_double (((utime + stime) % 2 ^ 64 : Nat) : ℚ) / to_double (ticks : ℚ))
  else 0

/-- The function `main` of `procinfo.c`.  The three paths are built by
`snprintf` into buffers of 256 bytes; a failing `fopen` inside `read_stat`,
`read_cmdline` or `read_vmrss_kb` ends the run through `open_fail`. -/
def main (argv : List (List Char)) (env : Env) : Run :=
  if argv.length ≠ 2 ∨ isnum (argv.getD 1 []) = false then .usage
  else
    let pid := cstr (argv.getD 1 [])
    let stat_path := ("/proc/".toList ++ pid ++ "/stat".toList).take 255
    let status_path := ("/proc/".toList ++ pid ++ "/status".toList).take 255
    let cmdline_path := ("/proc/".toList ++ pid ++ "/cmdline".toList).take 255
    match env.fopen stat_path with
    | .error errno => .failed stat_path (.open_failed errno)
    | .ok content =>
      match read_stat content with
      | .exit why => .failed stat_path why
      | .ok st =>
        match env.fopen cmdline_path with
        | .error errno => .failed cmdline_path (.open_failed errno)
        | .ok blob =>
          let cmdline := read_cmdline blob 4096
          match env.fopen status_path with
          | .error errno => .failed status_path (.open_failed errno)
          | .ok text =>
            let vmrss_kb := read_vmrss_kb text
            let cpu_sec : ℚ := cpu_seconds st.utime st.stime env.clk_tck
            .report { pid := pid, state := st.state, ppid := st.ppid, cmd := cmdline,
                      processor := st.processor, cpu_sec := cpu_sec,
                      vmrss_kb := vmrss_kb }


/-! ## Synthetic records -/

/-- Decimal text of a natural number, as `printf("%llu")` writes it. -/
def dec_text (n : Nat) : List Char := Nat.toDigits 10 n

/-- Decimal text of an integer, as `printf("%ld")` writes it. -/
def int_text (i : Int) : List Char :=
  if i < 0 then '-' :: dec_text i.natAbs else dec_text i.toNat

/-- One more field in front of a record: a single space, then the token. -/
def field (tok rest : List Char) : List Char := ' ' :: (tok ++ rest)

/-- The tokens, each preceded by a single space, followed by `tail`. -/
def fields (toks : List (List Char)) (tail : List Char) : List Char :=
  toks.foldr field tail

/-- The thirteen values that follow the command name in a stat record. -/
structure StatFields where
  state : Char
  ppid : Int
  pgrp : Int
  session : Int
  tty_nr : Int
  tpgid : Int
  flags : Nat
  minflt : Nat
  cminflt : Nat
  majflt : Nat
  cmajflt : Nat
  utime : Nat
  stime : Nat

/-- The twelve numeric tokens of a record, in order. -/
def StatFields.tokens (f : StatFields) : List (List Char) :=
  [int_text f.ppid, int_text f.pgrp, int_text f.session, int_text f.tty_nr,
   int_text f.tpgid, dec_text f.flags, dec_text f.minflt, dec_text f.cminflt,
   dec_text f.majflt, dec_text f.cmajflt, dec_text f.utime, dec_text f.stime]

/-- The text after `") "`: the state byte, the twelve numeric fields separated
by single spaces, then `tail`. -/
def stat_rest (f : StatFields) (tail : List Char) : List Char :=
  f.state :: fields f.tokens tail

/-- The record `<pid> (<comm>) <state> <tok> ... <tok><tail>`: the tokens after
the state byte are each preceded by a single space. -/
def record_line (pid : Nat) (comm : List Char) (state : Char) (toks : List (List Char))
    (tail : List Char) : List Char :=
  dec_text pid ++ ' ' :: '(' :: (comm ++ ')' :: ' ' :: state :: fields toks tail)

/-- The synthetic record `<pid> (<comm>) <state> <ppid> ... <stime><tail>`. -/
def stat_line (pid : Nat) (comm : List Char) (f : StatFields) (tail : List Char) :
    List Char :=
  record_line pid comm f.state f.tokens tail

/-- Whether a string starts with a decimal digit. -/
def digit_head : List Char → Bool
  | [] => false
  | c :: _ => isdigit c

/-- The first byte of `r`, if any, is not a decimal digit. -/
def no_digit_head (r : List Char) : Prop :=
  digit_head r = false

instance (r : List Char) : Decidable (no_digit_head r) :=
  inferInstanceAs (Decidable (digit_head r = false))


/-- Tokens written one after the other, separated by exactly one space. -/
def join_sp : List (List Char) → List Char
  | [] => []
  | [t] => t
  | t :: t2 :: ts => t ++ ' ' :: join_sp (t2 :: ts)


/-! ## Diagnostics and printed output -/

/-- The function `open_fail`: the diagnostic written to `stderr` for the value of
`errno` left by `fopen`, and the status passed to `exit`.  The text of
`strerror` is a parameter; `%s` prints a C string. -/
def open_fail (strerror : Nat → List Char) (path : List Char) (errno : Nat) :
    List Char × Nat :=
  (if errno = ENOENT then
      "Error: PID not found (missing ".toList ++ cstr path ++ ")\n".toList
    else if errno = EACCES then
      "Error: Permission denied reading ".toList ++ cstr path ++ "\n".toList
    else
      "Error: Could not open ".toList ++ cstr path ++ ": ".toList ++
        cstr (strerror errno) ++ "\n".toList,
    1)

/-- A piece of a printed line: literal text, or a value printed with `%.3f`
(whose digits are not modelled). -/
inductive Printed where
  | text (s : List Char)
  | fixed3 (q : ℚ)
  deriving DecidableEq

/-- The six `printf` calls at the end of `main`, one printed line each, in the
order of the code: `PID`, `State`, `PPID`, `Cmd`, `CPU`, `VmRSS`. -/
def Report.stdout (r : Report) : List (List Printed) :=
  [[.text "PID: ".toList, .text r.pid],
   [.text "State: ".toList, .text [r.state]],
   [.text "PPID: ".toList, .text (int_text r.ppid)],
   [.text "Cmd: ".toList, .text r.cmd],
   [.text "CPU: ".toList, .text (int_text r.processor), .text " ".toList, .fixed3 r.cpu_sec],
   [.text "VmRSS: ".toList, .text (int_text r.vmrss_kb)]]

/-- A file system that holds the three files of one process and nothing else,
with a clock tick rate. -/
def proc_files (pid stat cmdline status : List Char) (clk_tck : Int) : Env :=
  { fopen := fun path =>
      if path = "/proc/".toList ++ pid ++ "/stat".toList then .ok stat
      else if path = "/proc/".toList ++ pid ++ "/cmdline".toList then .ok cmdline
      else if path = "/proc/".toList ++ pid ++ "/status".toList then .ok status
      else .error ENOENT
    clk_tck := clk_tck }

/-- The remainder split at every single space, empty elements included. -/
def split_spaces (rest : List Char) : List (List Char) :=
  rest.splitOn ' '

end Procinfo

/-! A shallow embedding of `src/runwait.c`, the subprocess runner. -/

namespace Runwait

/-- The C `struct timespec`: seconds and nanoseconds. -/
structure timespec where
  tv_sec : Int
  tv_nsec : Int
  deriving DecidableEq

/-- A result of 64-bit signed arithmetic, reduced to the range of `long`. -/
def wrap_long (v : Int) : Int :=
  (v + 2 ^ 63) % 2 ^ 64 - 2 ^ 63

/-- The function `d`: `(b.tv_sec-a.tv_sec)+(b.tv_nsec-a.tv_nsec)/1e9`.  The two
differences are taken in `long`; the quotient and the sum are the exact values,
before they are rounded to `double`. -/
def d (a b : timespec) : ℚ :=
  ((wrap_long (b.tv_sec - a.tv_sec) : Int) : ℚ) +
    ((wrap_long (b.tv_nsec - a.tv_nsec) : Int) : ℚ) / 1000000000

/-- A timestamp in seconds. -/
def seconds (t : timespec) : ℚ :=
  (t.tv_sec : ℚ) + (t.tv_nsec : ℚ) / 10 ^ 9

/-- That `b` is not earlier than `a`. -/
def not_earlier (a b : timespec) : Prop :=
  a.tv_sec < b.tv_sec ∨ (a.tv_sec = b.tv_sec ∧ a.tv_nsec ≤ b.tv_nsec)

instance (a b : timespec) : Decidable (not_earlier a b) :=
  inferInstanceAs (Decidable (_ ∨ _))

/-- The macro `WTERMSIG(status)` of glibc (`bits/waitstatus.h`): `status & 0x7f`,
which for a two's complement `int` is the remainder modulo 128. -/
def WTERMSIG (status : Int) : Int :=
  status % 128

/-- The macro `WEXITSTATUS(status)` of glibc: `(status & 0xff00) >> 8`. -/
def WEXITSTATUS (status : Int) : Int :=
  (status / 256) % 256

/-- The macro `WIFEXITED(status)` of glibc: `WTERMSIG(status) == 0`. -/
def WIFEXITED (status : Int) : Bool :=
  decide (WTERMSIG status = 0)

/-- Conversion to `signed char`: the low 8 bits, two's complement. -/
def to_schar (v : Int) : Int :=
  (v + 128) % 256 - 128

/-- The macro `WIFSIGNALED(status)` of glibc:
`((signed char) ((status & 0x7f) + 1) >> 1) > 0`. -/
def WIFSIGNALED (status : Int) : Bool :=
  decide (0 < to_schar (status % 128 + 1) / 2)

/-- The wait status of a child that ends with `_exit(code)`:
`W_EXITCODE(code, 0)`, that is `(code & 0xff) << 8`. -/
def exit_status (code : Int) : Int :=
  (code % 256) * 256

/-- What the runner meets in the system: the two results of `clock_gettime`
(`none` when the call fails), the result of `fork` in the parent (`none` when it
fails, else the positive pid of the child), whether `execvp` succeeds in the
child, the wait status the command produces once it runs, and whether `waitpid`
succeeds. -/
structure Sys where
  clock0 : Option timespec
  fork : Option ℕ+
  exec_ok : Bool
  command_status : Int
  waitpid_ok : Bool
  clock1 : Option timespec

/-- What follows `elapsed=` in the printed line: `exit=<code>` or
`signal=<number>`. -/
inductive Tail where
  | exit (code : Int)
  | signal (number : Int)
  deriving DecidableEq

/-- The printed line `pid=<id> elapsed=<seconds> exit=<code>` or
`pid=<id> elapsed=<seconds> signal=<number>`; the seconds are printed with
`%.3f`. -/
structure Line where
  pid : Int
  elapsed : ℚ
  tail : Tail
  deriving DecidableEq

/-- What a run leaves behind: the line on `stdout` (if any), the diagnostics on
`stderr` in order (the usage message, or the tag passed to `perror`), and the
exit status of the runner. -/
structure Output where
  stdout : Option Line
  stderr : List (List Char)
  status : Nat
  deriving DecidableEq

/-- The branches of `main` on the wait status (lines 48-54): `WIFEXITED`, else
`WIFSIGNALED`, else the fallback `exit=1`. -/
def classify (status : Int) : Tail :=
  if WIFEXITED status then .exit (WEXITSTATUS status)
  else if WIFSIGNALED status then .signal (WTERMSIG status)
  else .exit 1

/-- The child's branch of `main` (lines 29-33): what the child writes to
`stderr` and the wait status it leaves.  When `execvp` succeeds the command
runs and leaves its own status; when it fails the child calls
`perror("execvp")` and `_exit(127)`. -/
def child (sys : Sys) : List (List Char) × Int :=
  if sys.exec_ok then ([], sys.command_status)
  else (["execvp".toList], exit_status 127)

/-- The function `main` of `runwait.c`, as run by the parent, together with what
its child writes to the shared `stderr`. -/
def main (argv : List (List Char)) (sys : Sys) : Output :=
  if argv.length < 2 then { stdout := none, stderr := ["usage".toList], status := 1 }
  else
    match sys.clock0 with
    | none => { stdout := none, stderr := ["clock_gettime".toList], status := 1 }
    | some t0 =>
      match sys.fork with
      | none => { stdout := none, stderr := ["fork".toList], status := 1 }
      | some pid =>
        let c := child sys
        if sys.waitpid_ok = false then
          { stdout := none, stderr := c.1 ++ ["waitpid".toList], status := 1 }
        else
          match sys.clock1 with
          | none => { stdout := none, stderr := c.1 ++ ["clock_gettime".toList], status := 1 }
          | some t1 =>
            { stdout := some { pid := (pid : Int), elapsed := d t0 t1, tail := classify c.2 }
              stderr := c.1
              status := 0 }

end Runwait

namespace Procinfo

/-! ## Decimal text and number scanning -/

theorem toDigitsCore_spec (fuel : Nat) : ∀ n : Nat, n < fuel →
    ∃ L : List Char, (∀ ds, Nat.toDigitsCore 10 fuel n ds = L ++ ds) ∧ L ≠ [] ∧
      (∀ c ∈ L, isdigit c = true) ∧ decval L = n := by
  induction fuel with
  | zero => intro n h; omega
  | succ k ih =>
    intro n hn
    by_cases h0 : n / 10 = 0
    · refine ⟨[Nat.digitChar (n % 10)], ?_, by simp, ?_, ?_⟩
      · intro ds; simp [Nat.toDigitsCore, h0]
      · intro c hc
        have h10 : n % 10 < 10 := Nat.mod_lt _ (by norm_num)
        simp only [List.mem_singleton] at hc
        subst hc
        interval_cases (n % 10) <;> decide
      · have h10 : n < 10 := by omega
        interval_cases n <;> decide
    · have hlt : n / 10 < k := by omega
      obtain ⟨L, hL, hne, hdig, hval⟩ := ih (n / 10) hlt
      refine ⟨L ++ [Nat.digitChar (n % 10)], ?_, by simp, ?_, ?_⟩
      · intro ds; simp [Nat.toDigitsCore, h0, hL]
      · intro c hc
        rcases List.mem_append.mp hc with h | h
        · exact hdig c h
        · have h10 : n % 10 < 10 := Nat.mod_lt _ (by norm_num)
          simp only [List.mem_singleton] at h
          subst h
          interval_cases (n % 10) <;> decide
      · have h10 : n % 10 < 10 := Nat.mod_lt _ (by norm_num)
        have hd : (Nat.digitChar (n % 10)).toNat - 48 = n % 10 := by
          interval_cases (n % 10) <;> decide
        unfold decval at hval ⊢
        rw [List.foldl_append, hval]
        simp only [List.foldl_cons, List.foldl_nil, hd]
        omega

theorem dec_text_spec (n : Nat) :
    dec_text n ≠ [] ∧ (∀ c ∈ dec_text n, isdigit c = true) ∧ decval (dec_text n) = n := by
  obtain ⟨L, hL, hne, hdig, hval⟩ := toDigitsCore_spec (n + 1) n (Nat.lt_succ_self n)
  have h : dec_text n = L := by
    unfold dec_text Nat.toDigits
    rw [hL []]; simp
  rw [h]
  exact ⟨hne, hdig, hval⟩

theorem isdigit_not_isspace {c : Char} (h : isdigit c = true) : isspace c = false := by
  unfold isdigit at h
  unfold isspace
  simp only [Bool.and_eq_true, decide_eq_true_eq] at h
  have h1 : c ≠ ' ' := by
    intro hc; subst hc; revert h; decide
  simp [h1]
  intro _
  omega

theorem isdigit_not_sign {c : Char} (h : isdigit c = true) : c ≠ '-' ∧ c ≠ '+' := by
  constructor <;> (intro hc; subst hc; revert h; decide)

theorem takeWhile_digits (ds r : List Char) (hds : ∀ c ∈ ds, isdigit c = true)
    (hr : no_digit_head r) :
    (ds ++ r).takeWhile isdigit = ds ∧ (ds ++ r).dropWhile isdigit = r := by
  induction ds with
  | nil =>
    cases r with
    | nil => simp
    | cons x t =>
      have hx : isdigit x = false := hr
      simp [List.takeWhile, List.dropWhile, hx]
  | cons d ds ih =>
    have hd : isdigit d = true := hds d (List.mem_cons_self _ _)
    have ih2 := ih (fun c hc => hds c (List.mem_cons_of_mem _ hc))
    simp [List.takeWhile, List.dropWhile, hd, ih2.1, ih2.2]

theorem scan_number_digits (ds r : List Char) (hne : ds ≠ [])
    (hds : ∀ c ∈ ds, isdigit c = true) (hr : no_digit_head r) :
    scan_number (ds ++ r) = some (false, decval ds, r) := by
  obtain ⟨d, ds1, rfl⟩ := List.exists_cons_of_ne_nil hne
  have hd : isdigit d = true := hds d (List.mem_cons_self _ _)
  have hsp : isspace d = false := isdigit_not_isspace hd
  obtain ⟨hm, hp⟩ := isdigit_not_sign hd
  obtain ⟨htw, hdw⟩ := takeWhile_digits (d :: ds1) r hds hr
  simp only [List.cons_append] at htw hdw
  simp [scan_number, List.dropWhile, hsp, hm, hp, htw, hdw]

theorem scan_number_minus (ds r : List Char) (hne : ds ≠ [])
    (hds : ∀ c ∈ ds, isdigit c = true) (hr : no_digit_head r) :
    scan_number ('-' :: (ds ++ r)) = some (true, decval ds, r) := by
  obtain ⟨htw, hdw⟩ := takeWhile_digits ds r hds hr
  have hsp : isspace '-' = false := by decide
  simp [scan_number, List.dropWhile, hsp, htw, hdw, hne]

theorem scan_number_space (s : List Char) : scan_number (' ' :: s) = scan_number s := by
  have hsp : isspace ' ' = true := by decide
  simp [scan_number, List.dropWhile, hsp]

theorem scan_number_dec_text (n : Nat) (r : List Char) (hr : no_digit_head r) :
    scan_number (dec_text n ++ r) = some (false, n, r) := by
  obtain ⟨hne, hdig, hval⟩ := dec_text_spec n
  rw [scan_number_digits _ _ hne hdig hr, hval]

theorem scan_number_int_text (i : Int) (r : List Char) (hr : no_digit_head r) :
    scan_number (int_text i ++ r) = some (decide (i < 0), i.natAbs, r) := by
  unfold int_text
  by_cases h : i < 0
  · obtain ⟨hne, hdig, hval⟩ := dec_text_spec i.natAbs
    simp only [h, if_true, List.cons_append, decide_True]
    rw [scan_number_minus _ _ hne hdig hr, hval]
  · simp only [h, if_false, decide_False]
    rw [scan_number_dec_text _ _ hr]
    have : i.toNat = i.natAbs := by omega
    rw [this]


/-! ## Lines, C strings and the last parenthesis -/

theorem getlines_cases (X : List Char) :
    (X = [] ∧ getlines X = []) ∨ ∃ l ls R, getlines X = l :: ls ∧ X = l ++ R := by
  induction X with
  | nil => left; exact ⟨rfl, rfl⟩
  | cons c t ih =>
    right
    by_cases hc : c = '\n'
    · exact ⟨[c], getlines t, t, by simp [getlines, hc], by simp⟩
    · rcases ih with ⟨ht, hg⟩ | ⟨l, ls, R, hg, ht⟩
      · exact ⟨[c], [], [], by simp [getlines, hc, hg], by simp [ht]⟩
      · exact ⟨c :: l, ls, R, by simp [getlines, hc, hg], by simp [ht]⟩

theorem getlines_append (A T : List Char) (hA : ∀ c ∈ A, c ≠ '\n') (hne : A ≠ []) :
    ∃ L R more, getlines (A ++ T) = (A ++ L) :: more ∧ T = L ++ R := by
  induction A with
  | nil => exact absurd rfl hne
  | cons a A1 ih =>
    have ha : a ≠ '\n' := hA a (List.mem_cons_self _ _)
    by_cases hA1 : A1 = []
    · subst hA1
      rcases getlines_cases T with ⟨ht, hg⟩ | ⟨l, ls, R, hg, ht⟩
      · exact ⟨[], [], [], by simp [getlines, ha, hg], by simp [ht]⟩
      · exact ⟨l, R, ls, by simp [getlines, ha, hg], ht⟩
    · obtain ⟨L, R, more, hg, ht⟩ := ih (fun c hc => hA c (List.mem_cons_of_mem _ hc)) hA1
      exact ⟨L, R, more, by simp [getlines, ha, hg], ht⟩

theorem cstr_append (A L : List Char) (hA : ∀ c ∈ A, c ≠ NUL) :
    cstr (A ++ L) = A ++ cstr L := by
  induction A with
  | nil => rfl
  | cons a A1 ih =>
    have ha : a ≠ NUL := hA a (List.mem_cons_self _ _)
    have ih2 := ih (fun c hc => hA c (List.mem_cons_of_mem _ hc))
    unfold cstr at ih2 ⊢
    simp [List.takeWhile_cons, ha, ih2]

theorem cstr_split (L : List Char) : ∃ R, L = cstr L ++ R :=
  ⟨L.dropWhile (fun c => c != NUL), (List.takeWhile_append_dropWhile _ L).symm⟩

theorem cstr_eq_self (L : List Char) (h : ∀ c ∈ L, c ≠ NUL) : cstr L = L := by
  have := cstr_append L [] h
  simpa [cstr] using this

/-- The line the code works on, for a file that starts with NUL-free,
newline-free bytes `A`: `A` followed by a leading part of what comes after. -/
theorem first_line (A T : List Char) (hA : ∀ c ∈ A, c ≠ '\n' ∧ c ≠ NUL) (hne : A ≠ []) :
    ∃ T1 T2 buf more, getlines (A ++ T) = buf :: more ∧ cstr buf = A ++ T1 ∧
      T = T1 ++ T2 := by
  obtain ⟨L, R, more, hg, ht⟩ := getlines_append A T (fun c hc => (hA c hc).1) hne
  obtain ⟨R2, hR2⟩ := cstr_split L
  refine ⟨cstr L, R2 ++ R, A ++ L, more, hg, cstr_append A L (fun c hc => (hA c hc).2), ?_⟩
  rw [← List.append_assoc, ← hR2]
  exact ht

theorem strrchr_none (s : List Char) (c : Char) (h : c ∉ s) : strrchr s c = none := by
  induction s with
  | nil => rfl
  | cons x t ih =>
    have hx : x ≠ c := fun e => h (e ▸ List.mem_cons_self _ _)
    have ht : c ∉ t := fun e => h (List.mem_cons_of_mem _ e)
    simp [strrchr, ih ht, hx]

theorem strrchr_last (P Q : List Char) (c : Char) (h : c ∉ Q) :
    strrchr (P ++ c :: Q) c = some (c :: Q) := by
  induction P with
  | nil => simp [strrchr, strrchr_none Q c h]
  | cons x t ih => simp [strrchr, ih]

theorem strrchr_none_mem (s : List Char) (c : Char) (h : strrchr s c = none) : c ∉ s := by
  induction s with
  | nil => simp
  | cons x t ih =>
    cases ht : strrchr t c with
    | some r1 => simp [strrchr, ht] at h
    | none =>
      simp only [strrchr, ht] at h
      by_cases hx : x = c
      · simp [hx] at h
      · intro hmem
        rcases List.mem_cons.mp hmem with e | e
        · exact hx e.symm
        · exact ih ht e

theorem strrchr_some (s : List Char) (c : Char) :
    ∀ r, strrchr s c = some r → ∃ P Q, s = P ++ c :: Q ∧ c ∉ Q ∧ r = c :: Q := by
  induction s with
  | nil => intro r h; simp [strrchr] at h
  | cons x t ih =>
    intro r h
    cases ht : strrchr t c with
    | some r1 =>
      simp only [strrchr, ht] at h
      obtain ⟨P, Q, hs, hQ, hr⟩ := ih r1 ht
      refine ⟨x :: P, Q, by simp [hs], hQ, ?_⟩
      rw [← hr]; exact (Option.some.inj h).symm
    | none =>
      simp only [strrchr, ht] at h
      by_cases hx : x = c
      · simp only [hx, if_true] at h
        exact ⟨[], t, by simp [hx], strrchr_none_mem t c ht, (Option.some.inj h).symm⟩
      · simp [hx] at h


/-! ## Scanning the fields of a record -/

theorem read_stat_line (content buf : List Char) (more : List (List Char)) (P rest : List Char)
    (hg : getlines content = buf :: more) (hl : cstr buf = P ++ ')' :: ' ' :: rest)
    (hr : ')' ∉ rest) : read_stat content = read_stat_rest rest := by
  have hq : ')' ∉ ' ' :: rest := by
    intro h
    rcases List.mem_cons.mp h with e | e
    · exact absurd e (by decide)
    · exact hr e
  unfold read_stat
  simp [hg, hl, strrchr_last P (' ' :: rest) ')' hq]

theorem no_digit_head_field (tok r : List Char) : no_digit_head (field tok r) := by
  show isdigit ' ' = false
  decide

theorem no_digit_head_nil : no_digit_head [] := rfl

theorem scan_fields_int (cv : Conv) (cvs : List Conv) (i : Int) (r : List Char)
    (hr : no_digit_head r) :
    scan_fields (cv :: cvs) (field (int_text i) r) =
      cv.store (decide (i < 0)) i.natAbs :: scan_fields cvs r := by
  simp [scan_fields, field, scan_number_space, scan_number_int_text i r hr]

theorem scan_fields_dec (cv : Conv) (cvs : List Conv) (n : Nat) (r : List Char)
    (hr : no_digit_head r) :
    scan_fields (cv :: cvs) (field (dec_text n) r) =
      cv.store false n :: scan_fields cvs r := by
  simp [scan_fields, field, scan_number_space, scan_number_dec_text n r hr]

theorem strtol_val_int (i : Int) (h1 : LONG_MIN ≤ i) (h2 : i ≤ LONG_MAX) :
    strtol_val (decide (i < 0)) i.natAbs = i := by
  unfold strtol_val
  by_cases h : i < 0
  · simp only [h, decide_True, if_true]
    have : -((i.natAbs : Nat) : Int) = i := by omega
    rw [this]; exact max_eq_right h1
  · simp only [h, decide_False]
    have : ((i.natAbs : Nat) : Int) = i := by omega
    rw [this]; simp [h2]

theorem strtoull_val_nat (n : Nat) (h : n ≤ ULLONG_MAX) : strtoull_val false n = n := by
  unfold strtoull_val
  simp [Nat.not_lt.mpr h]

theorem scan_fields_tokens (f : StatFields) (tail : List Char) (ht : no_digit_head tail) :
    scan_fields stat_format (fields f.tokens tail) =
      [strtol_val (decide (f.ppid < 0)) f.ppid.natAbs,
       strtol_val (decide (f.pgrp < 0)) f.pgrp.natAbs,
       strtol_val (decide (f.session < 0)) f.session.natAbs,
       strtol_val (decide (f.tty_nr < 0)) f.tty_nr.natAbs,
       strtol_val (decide (f.tpgid < 0)) f.tpgid.natAbs,
       (strtoull_val false f.flags : Int), (strtoull_val false f.minflt : Int),
       (strtoull_val false f.cminflt : Int), (strtoull_val false f.majflt : Int),
       (strtoull_val false f.cmajflt : Int), (strtoull_val false f.utime : Int),
       (strtoull_val false f.stime : Int)] := by
  simp only [stat_format, StatFields.tokens, fields, List.foldr_cons, List.foldr_nil]
  rw [scan_fields_int _ _ _ _ (no_digit_head_field _ _),
    scan_fields_int _ _ _ _ (no_digit_head_field _ _),
    scan_fields_int _ _ _ _ (no_digit_head_field _ _),
    scan_fields_int _ _ _ _ (no_digit_head_field _ _),
    scan_fields_int _ _ _ _ (no_digit_head_field _ _),
    scan_fields_dec _ _ _ _ (no_digit_head_field _ _),
    scan_fields_dec _ _ _ _ (no_digit_head_field _ _),
    scan_fields_dec _ _ _ _ (no_digit_head_field _ _),
    scan_fields_dec _ _ _ _ (no_digit_head_field _ _),
    scan_fields_dec _ _ _ _ (no_digit_head_field _ _),
    scan_fields_dec _ _ _ _ (no_digit_head_field _ _),
    scan_fields_dec _ _ _ _ ht]
  simp [scan_fields, Conv.store]

theorem read_stat_rest_fields (f : StatFields) (tail : List Char) (ht : no_digit_head tail) :
    read_stat_rest (stat_rest f tail) =
      .ok { state := f.state
            ppid := strtol_val (decide (f.ppid < 0)) f.ppid.natAbs
            utime := strtoull_val false f.utime
            stime := strtoull_val false f.stime
            processor := parse_processor_from_rest (stat_rest f tail) } := by
  simp [read_stat_rest, sscanf_stat, stat_rest, scan_fields_tokens f tail ht]


/-! ## The synthetic record -/

theorem numeric_char_ne {c : Char} (h : isdigit c = true ∨ c = '-') :
    c ≠ '\n' ∧ c ≠ NUL ∧ c ≠ ')' ∧ c ≠ ' ' := by
  rcases h with h | h
  · refine ⟨?_, ?_, ?_, ?_⟩ <;> (intro hc; subst hc; revert h; decide)
  · subst h; decide

theorem mem_dec_text {n : Nat} {c : Char} (h : c ∈ dec_text n) : isdigit c = true :=
  (dec_text_spec n).2.1 c h

theorem mem_int_text {i : Int} {c : Char} (h : c ∈ int_text i) :
    isdigit c = true ∨ c = '-' := by
  unfold int_text at h
  split at h
  · rcases List.mem_cons.mp h with e | e
    · exact Or.inr e
    · exact Or.inl (mem_dec_text e)
  · exact Or.inl (mem_dec_text h)

theorem mem_tokens {f : StatFields} {tok : List Char} (h : tok ∈ f.tokens) :
    ∀ c ∈ tok, isdigit c = true ∨ c = '-' := by
  intro c hc
  simp only [StatFields.tokens, List.mem_cons, List.mem_singleton, List.not_mem_nil,
    or_false] at h
  rcases h with h | h | h | h | h | h | h | h | h | h | h | h <;> subst h
  all_goals first
    | exact mem_int_text hc
    | exact Or.inl (mem_dec_text hc)

theorem mem_fields {toks : List (List Char)} {t : List Char} {c : Char}
    (h : c ∈ fields toks t) : c = ' ' ∨ (∃ tok ∈ toks, c ∈ tok) ∨ c ∈ t := by
  induction toks with
  | nil => exact Or.inr (Or.inr h)
  | cons tok more ih =>
    simp only [fields, List.foldr_cons, field, List.mem_cons, List.mem_append] at h
    rcases h with h | h | h
    · exact Or.inl h
    · exact Or.inr (Or.inl ⟨tok, List.mem_cons_self _ _, h⟩)
    · rcases ih h with e | ⟨tk, htk, hc⟩ | e
      · exact Or.inl e
      · exact Or.inr (Or.inl ⟨tk, List.mem_cons_of_mem _ htk, hc⟩)
      · exact Or.inr (Or.inr e)

theorem fields_append (toks : List (List Char)) (x y : List Char) :
    fields toks (x ++ y) = fields toks x ++ y := by
  induction toks with
  | nil => rfl
  | cons tok more ih =>
    simp only [fields, List.foldr_cons, field] at ih ⊢
    rw [ih]; simp

theorem record_line_append (pid : Nat) (comm : List Char) (state : Char)
    (toks : List (List Char)) (x y : List Char) :
    record_line pid comm state toks (x ++ y) = record_line pid comm state toks x ++ y := by
  simp [record_line, fields_append]

theorem no_digit_head_left {T1 T2 : List Char} (h : no_digit_head (T1 ++ T2)) :
    no_digit_head T1 := by
  cases T1 with
  | nil => rfl
  | cons x t => exact h

/-- Reading a record reaches the field scan with the fields intact: what is
scanned is the record's remainder, with `tail` cut at the end of the line. -/
theorem read_stat_record_line (pid : Nat) (comm : List Char) (state : Char)
    (toks : List (List Char)) (tail : List Char)
    (hcomm : ∀ c ∈ comm, c ≠ '\n' ∧ c ≠ NUL)
    (hstate : state ≠ '\n' ∧ state ≠ NUL ∧ state ≠ ')')
    (htoks : ∀ tok ∈ toks, ∀ c ∈ tok, c ≠ '\n' ∧ c ≠ NUL ∧ c ≠ ')')
    (htail : ')' ∉ tail) :
    ∃ T1 T2, tail = T1 ++ T2 ∧
      read_stat (record_line pid comm state toks tail) =
        read_stat_rest (state :: fields toks T1) := by
  have hA : ∀ c ∈ record_line pid comm state toks [], c ≠ '\n' ∧ c ≠ NUL := by
    intro c hc
    simp only [record_line, List.mem_append, List.mem_cons] at hc
    rcases hc with h | h | h | h | h | h | h | h
    · exact ⟨(numeric_char_ne (Or.inl (mem_dec_text h))).1,
        (numeric_char_ne (Or.inl (mem_dec_text h))).2.1⟩
    · subst h; decide
    · subst h; decide
    · exact hcomm c h
    · subst h; decide
    · subst h; decide
    · subst h; exact ⟨hstate.1, hstate.2.1⟩
    · rcases mem_fields h with e | ⟨tok, htok, hc⟩ | e
      · subst e; decide
      · exact ⟨(htoks tok htok c hc).1, (htoks tok htok c hc).2.1⟩
      · simp at e
  have hne : record_line pid comm state toks [] ≠ [] := by
    have := (dec_text_spec pid).1
    simp [record_line, this]
  obtain ⟨T1, T2, buf, more, hg, hc, ht⟩ :=
    first_line (record_line pid comm state toks []) tail hA hne
  refine ⟨T1, T2, ht, ?_⟩
  have hcontent : record_line pid comm state toks tail =
      record_line pid comm state toks [] ++ tail := by
    rw [← record_line_append]; simp
  have hline : cstr buf =
      (dec_text pid ++ ' ' :: '(' :: comm) ++ ')' :: ' ' :: state :: fields toks T1 := by
    rw [hc, ← record_line_append]; simp [record_line]
  have hno : ')' ∉ state :: fields toks T1 := by
    intro h
    rcases List.mem_cons.mp h with e | e
    · exact hstate.2.2 e.symm
    · rcases mem_fields e with e1 | ⟨tok, htok, hc⟩ | e1
      · exact absurd e1 (by decide)
      · exact (htoks tok htok _ hc).2.2 rfl
      · exact htail (by rw [ht]; exact List.mem_append_left _ e1)
  rw [hcontent]
  exact read_stat_line _ buf more _ _ hg hline hno

theorem tokens_clean (f : StatFields) :
    ∀ tok ∈ f.tokens, ∀ c ∈ tok, c ≠ '\n' ∧ c ≠ NUL ∧ c ≠ ')' := by
  intro tok htok c hc
  have h := numeric_char_ne (mem_tokens htok c hc)
  exact ⟨h.1, h.2.1, h.2.2.1⟩

theorem read_stat_stat_line (pid : Nat) (comm : List Char) (f : StatFields) (tail : List Char)
    (hcomm : ∀ c ∈ comm, c ≠ '\n' ∧ c ≠ NUL)
    (hstate : f.state ≠ '\n' ∧ f.state ≠ NUL ∧ f.state ≠ ')')
    (htail : ')' ∉ tail) :
    ∃ T1 T2, tail = T1 ++ T2 ∧
      read_stat (stat_line pid comm f tail) = read_stat_rest (stat_rest f T1) :=
  read_stat_record_line pid comm f.state f.tokens tail hcomm hstate (tokens_clean f) htail


/-! ## Records with fewer fields -/

theorem no_digit_head_fields (toks : List (List Char)) (t : List Char)
    (h : no_digit_head t) : no_digit_head (fields toks t) := by
  cases toks with
  | nil => exact h
  | cons tok more => exact no_digit_head_field tok _

theorem read_stat_rest_format (rest : List Char) :
    read_stat_rest rest ≠ .exit .unexpected_format := by
  unfold read_stat_rest
  by_cases h : (sscanf_stat rest).1 ≠ 13
  · simp [h]
  · simp [h]

theorem no_digit_head_dropWhile (s : List Char) : no_digit_head (s.dropWhile isdigit) := by
  have h := List.head?_dropWhile_not isdigit s
  cases hd : s.dropWhile isdigit with
  | nil => rfl
  | cons x r =>
    rw [hd] at h
    simpa using h

theorem strtok_runs_append (t r : List Char) (h : ' ' ∉ t) :
    strtok_runs (t ++ ' ' :: r) = (t, strtok_all r) := by
  induction t with
  | nil => simp [strtok_runs, strtok_all]
  | cons c t ih =>
    have hc : c ≠ ' ' := fun e => h (e ▸ List.mem_cons_self _ _)
    have ih2 := ih (fun e => h (List.mem_cons_of_mem _ e))
    simp [strtok_runs, hc, ih2]

theorem strtok_runs_token (t : List Char) (h : ' ' ∉ t) : strtok_runs t = (t, []) := by
  induction t with
  | nil => rfl
  | cons c t ih =>
    have hc : c ≠ ' ' := fun e => h (e ▸ List.mem_cons_self _ _)
    have ih2 := ih (fun e => h (List.mem_cons_of_mem _ e))
    simp [strtok_runs, hc, ih2]

theorem strtok_all_join (toks : List (List Char)) (h : ∀ t ∈ toks, t ≠ [] ∧ ' ' ∉ t) :
    strtok_all (join_sp toks) = toks := by
  induction toks with
  | nil => rfl
  | cons t ts ih =>
    have ht := h t (List.mem_cons_self _ _)
    have ih2 := ih (fun x hx => h x (List.mem_cons_of_mem _ hx))
    cases ts with
    | nil => simp [join_sp, strtok_all, strtok_runs_token t ht.2, ht.1]
    | cons t2 ts2 =>
      have hstep : strtok_all (t ++ ' ' :: join_sp (t2 :: ts2)) =
          t :: strtok_all (join_sp (t2 :: ts2)) := by
        simp [strtok_all, strtok_runs_append t _ ht.2, ht.1]
      simp only [join_sp]
      rw [hstep, ih2]

theorem join_sp_no_nul (toks : List (List Char)) (h : ∀ t ∈ toks, NUL ∉ t) :
    ∀ c ∈ join_sp toks, c ≠ NUL := by
  induction toks with
  | nil => intro c hc; simp [join_sp] at hc
  | cons t ts ih =>
    have ht := h t (List.mem_cons_self _ _)
    have ih2 := ih (fun x hx => h x (List.mem_cons_of_mem _ hx))
    cases ts with
    | nil =>
      intro c hc e
      simp only [join_sp] at hc
      exact ht (e ▸ hc)
    | cons t2 ts2 =>
      intro c hc e
      simp only [join_sp, List.mem_append, List.mem_cons] at hc
      rcases hc with h1 | h1 | h1
      · exact ht (e ▸ h1)
      · rw [e] at h1; exact absurd h1 (by decide)
      · exact ih2 c h1 e

theorem processor_loop_get (toks : List (List Char)) :
    ∀ idx, idx ≤ 36 →
      processor_loop toks idx = ((toks.get? (36 - idx)).map atoi).getD (-1) := by
  induction toks with
  | nil => intro idx _; rfl
  | cons tok more ih =>
    intro idx hidx
    by_cases h : idx = 36
    · subst h; simp [processor_loop]
    · have hlt : idx + 1 ≤ 36 := by omega
      have hsub : 36 - idx = (36 - (idx + 1)) + 1 := by omega
      simp only [processor_loop, h, if_false]
      rw [ih (idx + 1) hlt, hsub, List.get?_cons_succ]

theorem long_to_int_id (n : Int) (h1 : INT_MIN ≤ n) (h2 : n ≤ INT_MAX) : long_to_int n = n := by
  unfold INT_MIN at h1
  unfold INT_MAX at h2
  unfold long_to_int
  omega

theorem atoi_int_text (n : Int) (h1 : INT_MIN ≤ n) (h2 : n ≤ INT_MAX) :
    atoi (int_text n) = n := by
  have hs := scan_number_int_text n [] no_digit_head_nil
  rw [List.append_nil] at hs
  have hl1 : LONG_MIN ≤ n := by unfold INT_MIN at h1; unfold LONG_MIN; omega
  have hl2 : n ≤ LONG_MAX := by unfold INT_MAX at h2; unfold LONG_MAX; omega
  simp only [atoi, strtol, hs, strtol_val_int n hl1 hl2]
  exact long_to_int_id n h1 h2

theorem takeWhile_no_digit (s : List Char) (h : ∀ c ∈ s, isdigit c = false) :
    s.takeWhile isdigit = [] := by
  cases s with
  | nil => rfl
  | cons x t => simp [List.takeWhile_cons, h x (List.mem_cons_self _ _)]

theorem scan_number_no_digit (tok : List Char) (h : ∀ c ∈ tok, isdigit c = false) :
    scan_number tok = none := by
  unfold scan_number
  have hsub : ∀ c ∈ tok.dropWhile isspace, isdigit c = false :=
    fun c hc => h c ((List.dropWhile_sublist _).subset hc)
  cases hd : tok.dropWhile isspace with
  | nil => rfl
  | cons c t =>
    rw [hd] at hsub
    have h1 : (c :: t).takeWhile isdigit = [] := takeWhile_no_digit _ hsub
    have h2 : t.takeWhile isdigit = [] :=
      takeWhile_no_digit _ (fun x hx => hsub x (List.mem_cons_of_mem _ hx))
    by_cases hsgn : (c == '-' || c == '+') = true
    · simp [hsgn, h2]
    · simp only [hsgn]
      simp [h1]

theorem atoi_int_text_sat (n : Int) :
    atoi (int_text n) = long_to_int (max LONG_MIN (min LONG_MAX n)) := by
  have hs := scan_number_int_text n [] no_digit_head_nil
  rw [List.append_nil] at hs
  have hv : strtol_val (decide (n < 0)) n.natAbs = max LONG_MIN (min LONG_MAX n) := by
    unfold strtol_val LONG_MIN LONG_MAX
    by_cases h : n < 0
    · simp only [h, decide_True, if_true]
      have : -((n.natAbs : Nat) : Int) = n := by omega
      rw [this]
      congr 1
      exact (min_eq_right (by omega)).symm
    · simp only [h, decide_False]
      have : ((n.natAbs : Nat) : Int) = n := by omega
      rw [this]
      exact (max_eq_right (le_min (by norm_num) (by omega))).symm
  simp only [atoi, strtol, hs, hv]

theorem atoi_no_digit (tok : List Char) (h : ∀ c ∈ tok, isdigit c = false) : atoi tok = 0 := by
  simp [atoi, strtol, scan_number_no_digit tok h, long_to_int]

theorem strtok_runs_length (s : List Char) : (strtok_runs s).2.length ≤ s.count ' ' := by
  induction s with
  | nil => simp [strtok_runs]
  | cons c t ih =>
    by_cases hc : c = ' '
    · subst hc
      simp only [strtok_runs, if_true, List.count_cons_self]
      split
      · omega
      · simp only [List.length_cons]; omega
    · have : (c == ' ') = false := by simpa using hc
      simp only [strtok_runs, hc, if_false, List.count_cons, this]
      simpa using ih

theorem strtok_all_length_cons (c : Char) (X : List Char) :
    (strtok_all (c :: X)).length ≤ 1 + X.count ' ' := by
  have h := strtok_runs_length X
  by_cases hc : c = ' '
  · subst hc
    simp only [strtok_all, strtok_runs, if_true]
    split
    · split
      · omega
      · simp only [List.length_cons]; omega
    · simp at *
  · simp only [strtok_all, strtok_runs, hc, if_false]
    simp
    omega

theorem count_fields (toks : List (List Char)) (t : List Char)
    (h : ∀ tok ∈ toks, ' ' ∉ tok) :
    (fields toks t).count ' ' = toks.length + t.count ' ' := by
  induction toks with
  | nil => simp [fields]
  | cons tok more ih =>
    have h1 : tok.count ' ' = 0 := List.count_eq_zero.mpr (h tok (List.mem_cons_self _ _))
    have ih2 := ih (fun x hx => h x (List.mem_cons_of_mem _ hx))
    simp only [fields, List.foldr_cons, field] at ih2 ⊢
    rw [List.count_cons_self, List.count_append, h1, ih2]
    simp only [List.length_cons]
    omega

theorem processor_loop_short (toks : List (List Char)) (h : toks.length ≤ 36) :
    processor_loop toks 0 = -1 := by
  rw [processor_loop_get toks 0 (by omega)]
  have : toks.get? 36 = none := List.get?_eq_none.mpr h
  rw [Nat.sub_zero, this]
  rfl

theorem parse_processor_few (c : Char) (X : List Char) (hc : c ≠ NUL)
    (h : X.count ' ' ≤ 35) : parse_processor_from_rest (c :: X) = -1 := by
  unfold parse_processor_from_rest
  apply processor_loop_short
  have h1 : cstr (c :: X) = c :: cstr X := by
    unfold cstr; simp [List.takeWhile_cons, hc]
  rw [h1]
  have h2 := strtok_all_length_cons c (cstr X)
  have h3 : (cstr X).count ' ' ≤ X.count ' ' :=
    List.Sublist.count_le (List.takeWhile_sublist _) _
  omega


/-! ## The status file -/

theorem cstr_take_key (k : List Char) (hk : ∀ c ∈ k, c ≠ NUL) :
    ∀ b : List Char, (cstr b).take k.length = k ↔ b.take k.length = k := by
  induction k with
  | nil => intro b; simp
  | cons x k ih =>
    intro b
    have hx : x ≠ NUL := hk x (List.mem_cons_self _ _)
    have ih2 := ih (fun c hc => hk c (List.mem_cons_of_mem _ hc))
    cases b with
    | nil => simp [cstr]
    | cons y b =>
      by_cases hy : y = NUL
      · subst hy
        have : NUL ≠ x := fun e => hx e.symm
        simp [cstr, List.takeWhile_cons, this]
      · have h1 : cstr (y :: b) = y :: cstr b := by
          unfold cstr; simp [List.takeWhile_cons, hy]
        rw [h1]
        simp only [List.length_cons, List.take_succ_cons, List.cons.injEq]
        rw [ih2 b]

theorem vmrss_key_line (b : List Char) :
    (cstr b).take 6 = "VmRSS:".toList ↔ b.take 6 = "VmRSS:".toList :=
  cstr_take_key "VmRSS:".toList (by decide) b

theorem vmrss_skip (before rest : List (List Char))
    (h : ∀ b ∈ before, b.take 6 ≠ "VmRSS:".toList) :
    vmrss_loop (before ++ rest) = vmrss_loop rest := by
  induction before with
  | nil => rfl
  | cons b more ih =>
    have hb : ¬ (cstr b).take 6 = "VmRSS:".toList :=
      fun e => h b (List.mem_cons_self _ _) ((vmrss_key_line b).mp e)
    have ih2 := ih (fun x hx => h x (List.mem_cons_of_mem _ hx))
    simp only [List.cons_append, vmrss_loop, hb, if_false]
    exact ih2

theorem vmrss_at (buf : List Char) (after : List (List Char))
    (h : buf.take 6 = "VmRSS:".toList) :
    vmrss_loop (buf :: after) =
      if (((cstr buf).drop 6).dropWhile (fun c => !isdigit c)).isEmpty then -1
      else strtol (((cstr buf).drop 6).dropWhile (fun c => !isdigit c)) := by
  have hb : (cstr buf).take 6 = "VmRSS:".toList := (vmrss_key_line buf).mpr h
  simp only [vmrss_loop, hb, if_true]

theorem first_match {α : Type} (p : α → Prop) [DecidablePred p] (ls : List α) :
    (∀ x ∈ ls, ¬ p x) ∨
      ∃ before x after, ls = before ++ x :: after ∧ (∀ b ∈ before, ¬ p b) ∧ p x := by
  induction ls with
  | nil => left; simp
  | cons y t ih =>
    by_cases hy : p y
    · right; exact ⟨[], y, t, rfl, by simp, hy⟩
    · rcases ih with h | ⟨before, x, after, hs, hb, hx⟩
      · left
        intro x hx
        rcases List.mem_cons.mp hx with e | e
        · exact e ▸ hy
        · exact h x e
      · right
        refine ⟨y :: before, x, after, by simp [hs], ?_, hx⟩
        intro b hb2
        rcases List.mem_cons.mp hb2 with e | e
        · exact e ▸ hy
        · exact hb b e

theorem decval_ofDigits (ds : List Char) :
    decval ds = Nat.ofDigits 10 ((ds.map (fun c => c.toNat - 48)).reverse) := by
  induction ds using List.reverseRecOn with
  | nil => rfl
  | append_singleton l a ih =>
    have : decval (l ++ [a]) = 10 * decval l + (a.toNat - 48) := by
      unfold decval; rw [List.foldl_append]; rfl
    rw [this, ih]
    simp [Nat.ofDigits_cons]
    omega

theorem dropWhile_junk (junk X : List Char) (hj : ∀ c ∈ junk, isdigit c = false)
    (hX : ∀ c, X.head? = some c → isdigit c = true) :
    (junk ++ X).dropWhile (fun c => !isdigit c) = X := by
  induction junk with
  | nil =>
    cases X with
    | nil => rfl
    | cons x t =>
      have := hX x rfl
      simp [List.dropWhile_cons, this]
  | cons j more ih =>
    have hjd := hj j (List.mem_cons_self _ _)
    have ih2 := ih (fun c hc => hj c (List.mem_cons_of_mem _ hc))
    simp [List.dropWhile_cons, hjd, ih2]

theorem strtol_digits (ds r : List Char) (hne : ds ≠ [])
    (hds : ∀ c ∈ ds, isdigit c = true) (hr : no_digit_head r) :
    strtol (ds ++ r) = min LONG_MAX (decval ds : Int) := by
  simp [strtol, scan_number_digits ds r hne hds hr, strtol_val]

theorem strtol_digit_head (c : Char) (t : List Char) (hc : isdigit c = true) :
    0 ≤ strtol (c :: t) := by
  have hsplit : c :: t = (c :: t).takeWhile isdigit ++ (c :: t).dropWhile isdigit :=
    (List.takeWhile_append_dropWhile isdigit (c :: t)).symm
  have hne : (c :: t).takeWhile isdigit ≠ [] := by
    simp [List.takeWhile_cons, hc]
  rw [hsplit, strtol_digits _ _ hne (fun x hx => List.mem_takeWhile_imp hx)
    (no_digit_head_dropWhile _)]
  have h1 : (0 : Int) ≤ LONG_MAX := by decide
  exact le_min h1 (Int.ofNat_nonneg _)

theorem vmrss_none (text : List Char)
    (h : ∀ buf ∈ getlines text, buf.take 6 ≠ "VmRSS:".toList) : read_vmrss_kb text = -1 := by
  have := vmrss_skip (getlines text) [] h
  rw [List.append_nil] at this
  rw [read_vmrss_kb, this]
  rfl

theorem vmrss_value (text : List Char) (before : List (List Char)) (buf : List Char)
    (after : List (List Char)) (junk ds r : List Char)
    (hg : getlines text = before ++ buf :: after)
    (hbefore : ∀ b ∈ before, b.take 6 ≠ "VmRSS:".toList)
    (hline : cstr buf = "VmRSS:".toList ++ (junk ++ (ds ++ r)))
    (hjunk : ∀ c ∈ junk, isdigit c = false) (hne : ds ≠ [])
    (hds : ∀ c ∈ ds, isdigit c = true) (hr : no_digit_head r) :
    read_vmrss_kb text =
      min LONG_MAX (Nat.ofDigits 10 ((ds.map (fun c => c.toNat - 48)).reverse) : Nat) := by
  have hkey : buf.take 6 = "VmRSS:".toList := by
    apply (vmrss_key_line buf).mp
    rw [hline]; rfl
  have hdrop : (cstr buf).drop 6 = junk ++ (ds ++ r) := by rw [hline]; rfl
  obtain ⟨d, ds1, hd⟩ := List.exists_cons_of_ne_nil hne
  have hhead : ∀ c, (ds ++ r).head? = some c → isdigit c = true := by
    intro c hc
    rw [hd] at hc
    simp only [List.cons_append, List.head?_cons, Option.some.injEq] at hc
    exact hc ▸ hds d (hd ▸ List.mem_cons_self _ _)
  have hp := dropWhile_junk junk (ds ++ r) hjunk hhead
  have hnonempty : (ds ++ r).isEmpty = false := by rw [hd]; rfl
  rw [read_vmrss_kb, hg, vmrss_skip before _ hbefore, vmrss_at buf after hkey, hdrop, hp,
    hnonempty, strtol_digits ds r hne hds hr, decval_ofDigits]
  simp only [Bool.false_eq_true, if_false]


/-! ## The command line -/

theorem trim_loop_take (buf : List Char) :
    ∀ n, n ≤ buf.length →
      buf.take (trim_loop buf n) = (buf.take n).rdropWhile (fun c => c == ' ') := by
  intro n
  induction n with
  | zero => intro _; simp [trim_loop]
  | succ n ih =>
    intro hn
    have hlt : n < buf.length := hn
    have hget : buf.getD n NUL = buf[n] := List.getD_eq_getElem _ _ hlt
    have htake : buf.take (n + 1) = buf.take n ++ [buf[n]] := by
      rw [List.take_succ, List.getElem?_eq_getElem hlt]; rfl
    by_cases hx : buf[n] = ' '
    · have hp : (fun c : Char => c == ' ') buf[n] = true := by simp [hx]
      simp only [trim_loop, hget, hx, if_true]
      rw [htake, List.rdropWhile_concat_pos (fun c => c == ' ') _ buf[n] hp]
      exact ih (Nat.le_of_lt hlt)
    · have hp : ¬ ((fun c : Char => c == ' ') buf[n] = true) := by simp [hx]
      simp only [trim_loop, hget, hx, if_false]
      rw [htake, List.rdropWhile_concat_neg (fun c => c == ' ') _ buf[n] hp]

theorem nul_to_space_no_nul (buf : List Char) : ∀ c ∈ nul_to_space buf, c ≠ NUL := by
  intro c hc
  obtain ⟨x, _, rfl⟩ := List.mem_map.mp hc
  by_cases hx : x = NUL
  · simp only [hx, if_true]; decide
  · simp [hx]

theorem read_cmdline_take (blob : List Char) (bufsz : Nat) (h : blob.take (bufsz - 1) ≠ []) :
    read_cmdline blob bufsz =
      (nul_to_space (blob.take (bufsz - 1))).take
        (trim_loop (nul_to_space (blob.take (bufsz - 1))) (blob.take (bufsz - 1)).length) := by
  have hn : (blob.take (bufsz - 1)).length ≠ 0 := fun e => h (List.length_eq_zero.mp e)
  simp only [read_cmdline, hn, if_false]
  exact cstr_eq_self _ (fun c hc => nul_to_space_no_nul _ c (List.mem_of_mem_take hc))

theorem read_cmdline_trim (blob : List Char) (bufsz : Nat) (h : blob.take (bufsz - 1) ≠ []) :
    read_cmdline blob bufsz =
      (nul_to_space (blob.take (bufsz - 1))).rdropWhile (fun c => c == ' ') := by
  rw [read_cmdline_take blob bufsz h,
    trim_loop_take _ _ (by simp [nul_to_space]), List.take_of_length_le (by simp [nul_to_space])]

theorem read_cmdline_placeholder (blob : List Char) (bufsz : Nat) (h : blob.take (bufsz - 1) = []) :
    read_cmdline blob bufsz = "(empty)".toList.take (bufsz - 1) := by
  simp [read_cmdline, h]

theorem read_stat_truncated (pid : Nat) (comm : List Char) (f : StatFields)
    (extra : List (List Char)) (nl : List Char)
    (hcomm : ∀ c ∈ comm, c ≠ '\n' ∧ c ≠ NUL)
    (hstate : f.state ≠ '\n' ∧ f.state ≠ NUL ∧ f.state ≠ ')')
    (hextra : ∀ tok ∈ extra, ∀ c ∈ tok, c ≠ '\n' ∧ c ≠ NUL ∧ c ≠ ')' ∧ c ≠ ' ')
    (hlen : extra.length ≤ 23) (hnl : nl = [] ∨ nl = ['\n']) :
    ∃ st, read_stat (record_line pid comm f.state (f.tokens ++ extra) nl) = .ok st ∧
      st.state = f.state ∧ st.processor = -1 := by
  have hnlp : ')' ∉ nl := by rcases hnl with h | h <;> subst h <;> decide
  have hnl0 : nl.count ' ' = 0 := by rcases hnl with h | h <;> subst h <;> decide
  have hnld : no_digit_head nl := by rcases hnl with h | h <;> subst h <;> decide
  have htoks : ∀ tok ∈ f.tokens ++ extra, ∀ c ∈ tok, c ≠ '\n' ∧ c ≠ NUL ∧ c ≠ ')' := by
    intro tok htok c hc
    rcases List.mem_append.mp htok with h | h
    · exact tokens_clean f tok h c hc
    · exact ⟨(hextra tok h c hc).1, (hextra tok h c hc).2.1, (hextra tok h c hc).2.2.1⟩
  have hsp : ∀ tok ∈ f.tokens ++ extra, ' ' ∉ tok := by
    intro tok htok hc
    rcases List.mem_append.mp htok with h | h
    · exact (numeric_char_ne (mem_tokens h _ hc)).2.2.2 rfl
    · exact (hextra tok h _ hc).2.2.2 rfl
  obtain ⟨T1, T2, ht, hread⟩ :=
    read_stat_record_line pid comm f.state (f.tokens ++ extra) nl hcomm hstate htoks hnlp
  have hsplit : f.state :: fields (f.tokens ++ extra) T1 = stat_rest f (fields extra T1) := by
    simp [stat_rest, fields, List.foldr_append]
  have hT1d : no_digit_head T1 := no_digit_head_left (ht ▸ hnld)
  have hT1c : T1.count ' ' = 0 := by
    have : nl.count ' ' = T1.count ' ' + T2.count ' ' := by rw [ht, List.count_append]
    omega
  have hcount : (fields (f.tokens ++ extra) T1).count ' ' ≤ 35 := by
    rw [count_fields _ _ hsp, hT1c, List.length_append]
    have : f.tokens.length = 12 := rfl
    omega
  have hproc : parse_processor_from_rest (stat_rest f (fields extra T1)) = -1 := by
    rw [← hsplit]
    exact parse_processor_few f.state _ hstate.2.1 hcount
  rw [hread, hsplit, read_stat_rest_fields f _ (no_digit_head_fields extra T1 hT1d)]
  exact ⟨_, rfl, rfl, hproc⟩

theorem main_report (prog pid : List Char) (env : Env) (content blob text : List Char)
    (st : Stat) (hpid : isnum pid = true)
    (hstat : env.fopen (("/proc/".toList ++ cstr pid ++ "/stat".toList).take 255) = .ok content)
    (hread : read_stat content = .ok st)
    (hcmd : env.fopen (("/proc/".toList ++ cstr pid ++ "/cmdline".toList).take 255) = .ok blob)
    (hstatus : env.fopen (("/proc/".toList ++ cstr pid ++ "/status".toList).take 255) =
      .ok text) :
    main [prog, pid] env =
      .report { pid := cstr pid, state := st.state, ppid := st.ppid,
                cmd := read_cmdline blob 4096, processor := st.processor,
                cpu_sec := cpu_seconds st.utime st.stime env.clk_tck,
                vmrss_kb := read_vmrss_kb text } := by
  have harg : [prog, pid].getD 1 [] = pid := rfl
  have hlen : ¬ ([prog, pid].length ≠ 2 ∨ isnum pid = false) := by simp [hpid]
  simp only [main, harg, hlen, if_false, hstat, hread, hcmd, hstatus]

theorem strtok_runs_split (s : List Char) :
    ∃ h t, split_spaces s = h :: t ∧
      strtok_runs s = (h, t.filter (fun x => !x.isEmpty)) := by
  induction s with
  | nil => exact ⟨[], [], by simp [split_spaces, List.splitOn, List.splitOnP_nil], rfl⟩
  | cons c s ih =>
    obtain ⟨h, t, hsplit, hruns⟩ := ih
    simp only [split_spaces, List.splitOn] at hsplit ⊢
    by_cases hc : c = ' '
    · subst hc
      refine ⟨[], h :: t, by rw [List.splitOnP_cons]; simp [hsplit], ?_⟩
      simp only [strtok_runs, if_true, hruns, List.filter_cons]
      cases h with
      | nil => simp
      | cons x r => simp
    · refine ⟨c :: h, t, by rw [List.splitOnP_cons]; simp [hc, hsplit], ?_⟩
      simp [strtok_runs, hc, hruns]

theorem strtok_all_split (s : List Char) :
    strtok_all s = (split_spaces s).filter (fun x => !x.isEmpty) := by
  obtain ⟨h, t, hsplit, hruns⟩ := strtok_runs_split s
  rw [hsplit]
  simp only [strtok_all, hruns, List.filter_cons]
  cases h with
  | nil => simp
  | cons x r => simp

theorem read_cmdline_length (blob : List Char) (bufsz : Nat) :
    (read_cmdline blob bufsz).length ≤ bufsz - 1 := by
  by_cases h : blob.take (bufsz - 1) = []
  · rw [read_cmdline_placeholder blob bufsz h, List.length_take]
    exact Nat.min_le_left _ _
  · rw [read_cmdline_take blob bufsz h, List.length_take]
    have h1 : (nul_to_space (blob.take (bufsz - 1))).length ≤ bufsz - 1 := by
      simp only [nul_to_space, List.length_map, List.length_take]
      exact Nat.min_le_left _ _
    omega


/-! ## Rounding to double -/

theorem round_even_near (y : ℚ) : |(round_even y : ℚ) - y| ≤ 1 / 2 := by
  have h1 : (⌊y⌋ : ℚ) ≤ y := Int.floor_le y
  have h2 : y < ⌊y⌋ + 1 := Int.lt_floor_add_one y
  unfold round_even
  split_ifs with ha hb hc
  · rw [abs_le]; constructor <;> linarith
  · rw [abs_le]; push_cast; constructor <;> linarith
  · rw [abs_le]; constructor <;> linarith
  · rw [abs_le]; push_cast; constructor <;> linarith

theorem round_even_eq (y : ℚ) (m : Int) (h : |y - m| < 1 / 2) : round_even y = m := by
  rw [abs_lt] at h
  by_cases hm : (m : ℚ) ≤ y
  · have hf : ⌊y⌋ = m := Int.floor_eq_iff.mpr ⟨hm, by linarith⟩
    unfold round_even
    rw [hf]
    have : y - m < 1 / 2 := by linarith
    rw [if_pos this]
  · have hf : ⌊y⌋ = m - 1 := Int.floor_eq_iff.mpr ⟨by push_cast; linarith, by push_cast; linarith⟩
    unfold round_even
    rw [hf]
    have h1 : ¬ (y - ((m - 1 : Int) : ℚ) < 1 / 2) := by push_cast; linarith
    have h2 : 1 / 2 < y - ((m - 1 : Int) : ℚ) := by push_cast; linarith
    simp only [h1, h2, if_false, if_true]
    ring

theorem round_even_int (m : Int) : round_even (m : ℚ) = m :=
  round_even_eq _ m (by simp)

theorem log_eq (x : ℚ) (k : Int) (hx : 0 < x) (h1 : (2 : ℚ) ^ k ≤ x) (h2 : x < (2 : ℚ) ^ (k + 1)) :
    Int.log 2 x = k := by
  have ha : k ≤ Int.log 2 x := (Int.zpow_le_iff_le_log (by norm_num) hx).mp (by exact_mod_cast h1)
  have hb : Int.log 2 x < k + 1 := (Int.lt_zpow_iff_log_lt (by norm_num) hx).mp (by exact_mod_cast h2)
  omega

theorem to_double_pos (x : ℚ) (g : Int) (hx : 0 < x) (h1 : (2 : ℚ) ^ (g + 52) ≤ x)
    (h2 : x < (2 : ℚ) ^ (g + 53)) :
    to_double x = (round_even (x / 2 ^ g) : ℚ) * 2 ^ g := by
  have hl : Int.log 2 |x| = g + 52 := by
    rw [abs_of_pos hx]
    exact log_eq x (g + 52) hx h1 (by rw [show g + 52 + 1 = g + 53 by ring]; exact h2)
  unfold to_double
  rw [if_neg (ne_of_gt hx), hl]
  simp

theorem to_double_zero : to_double 0 = 0 := by simp [to_double]

theorem to_double_error (x : ℚ) (hx : 0 < x) : |to_double x - x| ≤ x / 2 ^ 53 := by
  obtain ⟨g, hg⟩ : ∃ g, g = Int.log 2 |x| - 52 := ⟨_, rfl⟩
  have hP : (0 : ℚ) < 2 ^ g := zpow_pos (by norm_num) g
  have hlog : (2 : ℚ) ^ (g + 52) ≤ x := by
    have h := Int.zpow_log_le_self (b := 2) (r := x) (by norm_num) hx
    rw [abs_of_pos hx] at hg
    have : g + 52 = Int.log 2 x := by omega
    rw [this]
    exact_mod_cast h
  have hval : to_double x = (round_even (x / 2 ^ g) : ℚ) * 2 ^ g := by
    unfold to_double
    rw [if_neg (ne_of_gt hx), ← hg]
  have hnear := round_even_near (x / 2 ^ g)
  have hdiff : to_double x - x = ((round_even (x / 2 ^ g) : ℚ) - x / 2 ^ g) * 2 ^ g := by
    rw [hval]
    field_simp
  rw [hdiff, abs_mul, abs_of_pos hP]
  have h52 : (2 : ℚ) ^ (g + 52) = 2 ^ g * 2 ^ (52 : ℕ) := by
    rw [zpow_add₀ (by norm_num)]
    norm_cast
  rw [h52] at hlog
  have h1 : |(round_even (x / 2 ^ g) : ℚ) - x / 2 ^ g| * 2 ^ g ≤ 1 / 2 * 2 ^ g :=
    mul_le_mul_of_nonneg_right hnear (le_of_lt hP)
  have h2 : (1 : ℚ) / 2 * 2 ^ g ≤ x / 2 ^ 53 := by
    rw [le_div_iff₀ (by norm_num)]
    have : (1 : ℚ) / 2 * 2 ^ g * 2 ^ 53 = 2 ^ g * 2 ^ (52 : ℕ) := by norm_num; ring
    rw [this]
    exact hlog
  exact le_trans h1 h2

theorem to_double_nat (n : Nat) (h : n < 2 ^ 53) : to_double (n : ℚ) = n := by
  by_cases h0 : n = 0
  · subst h0; simp [to_double]
  · have hpos : (0 : ℚ) < n := by exact_mod_cast Nat.pos_of_ne_zero h0
    have hk : Nat.log 2 n < 53 := Nat.log_lt_of_lt_pow h0 h
    have hlog : Int.log 2 |(n : ℚ)| = (Nat.log 2 n : Int) := by
      rw [abs_of_pos hpos]
      exact Int.log_natCast 2 n
    obtain ⟨j, hj⟩ : ∃ j : Nat, Nat.log 2 n + j = 52 := ⟨52 - Nat.log 2 n, by omega⟩
    have hg : (Nat.log 2 n : Int) - 52 = -(j : Int) := by omega
    have hy : (n : ℚ) / 2 ^ (-(j : Int)) = ((n * 2 ^ j : Nat) : Int) := by
      rw [zpow_neg, zpow_natCast]
      push_cast
      field_simp
    unfold to_double
    rw [if_neg (ne_of_gt hpos), hlog, hg, hy, round_even_int]
    rw [zpow_neg, zpow_natCast]
    push_cast
    field_simp

theorem to_double_int (t : Int) (h0 : 0 < t) (h : t < 2 ^ 53) : to_double (t : ℚ) = t := by
  obtain ⟨n, rfl⟩ : ∃ n : Nat, t = n := ⟨t.toNat, by omega⟩
  have hn : n < 2 ^ 53 := by exact_mod_cast h
  have := to_double_nat n hn
  exact_mod_cast this


/-! ## Claims -/

/-- C1 (as stated, refuted): a command name may not hold every byte other than
a newline. With the NUL byte in the command name, `a\0b`, the C string in the
line buffer ends inside the name, `strrchr` finds no parenthesis and `read_stat`
exits with "Unexpected format" instead of returning the injected values. The
state byte is bound in the same way: with NUL as the state the C string ends
after `") "` and `sscanf` returns `EOF`; with a newline as the state the line
ends there and one field is converted. -/
theorem read_stat_nul_in_comm :
    stat_line 1 ['a', NUL, 'b'] ⟨'S', 1, 0, 0, 0, 0, 0, 0, 0, 0, 0, 7, 9⟩ ['\n'] =
        "1 (a\x00b) S 1 0 0 0 0 0 0 0 0 0 7 9\n".toList ∧
      read_stat (stat_line 1 ['a', NUL, 'b'] ⟨'S', 1, 0, 0, 0, 0, 0, 0, 0, 0, 0, 7, 9⟩ ['\n']) =
        .exit .unexpected_format ∧
      read_stat (stat_line 1 ['a'] ⟨NUL, 1, 0, 0, 0, 0, 0, 0, 0, 0, 0, 7, 9⟩ ['\n']) =
        .exit (.could_not_parse (-1)) ∧
      read_stat (stat_line 1 ['a'] ⟨'\n', 1, 0, 0, 0, 0, 0, 0, 0, 0, 0, 7, 9⟩ ['\n']) =
        .exit (.could_not_parse 1) := by
  decide

/-- C1 (amended): `read_stat` anchors on the last `)` of the line. For every
command name made of bytes other than newline and NUL (`)` and spaces included),
every state byte other than newline, NUL and `)`, every parent id in the range
of `long` and user and system ticks in the range of `unsigned long long`, the
record `<pid> (<comm>) s ppid f3 ... f13<tail>` with single-space separated
decimal fields, followed by any text that holds no `)` and does not start with a
digit, is parsed to exactly the injected state, ppid, utime and stime, whatever
the command name is. -/
theorem read_stat_roundtrip (pid : Nat) (comm : List Char) (f : StatFields) (tail : List Char)
    (hcomm : ∀ c ∈ comm, c ≠ '\n' ∧ c ≠ NUL)
    (hstate : f.state ≠ '\n' ∧ f.state ≠ NUL ∧ f.state ≠ ')')
    (hppid : LONG_MIN ≤ f.ppid ∧ f.ppid ≤ LONG_MAX)
    (hutime : f.utime ≤ ULLONG_MAX) (hstime : f.stime ≤ ULLONG_MAX)
    (htail : ')' ∉ tail ∧ no_digit_head tail) :
    ∃ proc, read_stat (stat_line pid comm f tail) =
      .ok { state := f.state, ppid := f.ppid, utime := f.utime, stime := f.stime,
            processor := proc } := by
  obtain ⟨T1, T2, ht, hread⟩ := read_stat_stat_line pid comm f tail hcomm hstate htail.1
  have hT1 : no_digit_head T1 := no_digit_head_left (ht ▸ htail.2)
  refine ⟨parse_processor_from_rest (stat_rest f T1), ?_⟩
  rw [hread, read_stat_rest_fields f T1 hT1, strtol_val_int f.ppid hppid.1 hppid.2,
    strtoull_val_nat f.utime hutime, strtoull_val_nat f.stime hstime]

/-- Witness for C1 (amended): the command name `a) (b c` with an embedded `)` and
spaces. -/
theorem read_stat_roundtrip_witness :
    (∀ c ∈ "a) (b c".toList, c ≠ '\n' ∧ c ≠ NUL) ∧
    ('S' ≠ '\n' ∧ 'S' ≠ NUL ∧ 'S' ≠ ')') ∧
    (LONG_MIN ≤ (4 : Int) ∧ (4 : Int) ≤ LONG_MAX) ∧ 7 ≤ ULLONG_MAX ∧ 9 ≤ ULLONG_MAX ∧
    (')' ∉ " 20 0\n".toList ∧ no_digit_head " 20 0\n".toList) ∧
    ∃ proc, read_stat (stat_line 4242 "a) (b c".toList
        ⟨'S', 4, 4242, 4242, -1, -1, 0, 0, 0, 0, 0, 7, 9⟩ " 20 0\n".toList) =
      .ok { state := 'S', ppid := 4, utime := 7, stime := 9, processor := proc } :=
  ⟨by decide, by decide, by decide, by decide, by decide, by decide,
    read_stat_roundtrip 4242 "a) (b c".toList ⟨'S', 4, 4242, 4242, -1, -1, 0, 0, 0, 0, 0, 7, 9⟩
      " 20 0\n".toList (by decide) (by decide) (by decide) (by decide) (by decide) (by decide)⟩


/-- C2 (the code at the failing input): `isnum` answers 1 on the empty string,
so `main` does not print the usage message for the argument `""`; it builds the
path `/proc//stat` and goes on to open it (here the open fails with `ENOENT` and
the run ends in `open_fail`, not in `usage`). -/
theorem isnum_empty_accepted :
    isnum [] = true ∧
      isnum "12a".toList = false ∧ isnum "-5".toList = false ∧
      main ["procinfo".toList, "12a".toList] { fopen := fun _ => .error ENOENT, clk_tck := 100 } =
        .usage ∧
      main ["procinfo".toList, []] { fopen := fun _ => .error ENOENT, clk_tck := 100 } =
        .failed "/proc//stat".toList (.open_failed ENOENT) := by
  decide


/-- C4: for a line read by `getline` (the C string `line` in the buffer),
`read_stat` fails with the malformed-record error ("Unexpected format", exit 1)
if and only if the line holds no `)` or the byte right after its last `)` is
not a space; such a run returns no record. -/
theorem read_stat_unexpected_format_iff (content buf : List Char) (more : List (List Char))
    (hg : getlines content = buf :: more) :
    (read_stat content = .exit .unexpected_format ↔
      (')' ∉ cstr buf ∨
        ∃ P Q, cstr buf = P ++ ')' :: Q ∧ ')' ∉ Q ∧ Q.head? ≠ some ' ')) ∧
    (read_stat content = .exit .unexpected_format → ∀ st, read_stat content ≠ .ok st) := by
  refine ⟨?_, fun h st hst => by rw [h] at hst; exact Outcome.noConfusion hst⟩
  cases hs : strrchr (cstr buf) ')' with
  | none =>
    have hno := strrchr_none_mem _ _ hs
    simp [read_stat, hg, hs, hno]
  | some rp =>
    obtain ⟨P, Q, hline, hQ, hrp⟩ := strrchr_some _ _ rp hs
    subst hrp
    by_cases hh : Q.head? = some ' '
    · have hmem : ')' ∈ cstr buf := by rw [hline]; simp
      constructor
      · intro h
        exfalso
        simp only [read_stat, hg, hs, List.tail_cons, hh, ne_eq, not_true_eq_false,
          if_false] at h
        exact read_stat_rest_format _ h
      · rintro (h | ⟨P1, Q1, hl1, hQ1, hh1⟩)
        · exact absurd hmem h
        · exfalso
          have h1 := strrchr_last P1 Q1 ')' hQ1
          rw [← hl1, hs] at h1
          have : Q = Q1 := by simpa using h1
          exact hh1 (this ▸ hh)
    · constructor
      · intro _
        exact Or.inr ⟨P, Q, hline, hQ, hh⟩
      · intro _
        simp [read_stat, hg, hs, hh]

/-- Witness for C4: `1 (a)S 1 2` has no space after its last `)`. -/
theorem read_stat_unexpected_format_witness :
    getlines "1 (a)S 1 2\n".toList = ["1 (a)S 1 2\n".toList] ∧
      (read_stat "1 (a)S 1 2\n".toList = .exit .unexpected_format ↔
        (')' ∉ cstr "1 (a)S 1 2\n".toList ∨
          ∃ P Q, cstr "1 (a)S 1 2\n".toList = P ++ ')' :: Q ∧ ')' ∉ Q ∧ Q.head? ≠ some ' ')) :=
  ⟨by decide,
    (read_stat_unexpected_format_iff "1 (a)S 1 2\n".toList "1 (a)S 1 2\n".toList []
      (by decide)).1⟩


set_option maxRecDepth 4000 in
/-- C5 (as stated, refuted): the token at index 36 is converted by `atoi`, so a
decimal number outside the range of `int` does not come back as its value. With
the token `2147483648` the result is `-2147483648`, and with the token
`99999999999999999999` it is `-1`, the marker of a missing token. -/
theorem parse_processor_out_of_range :
    ((List.replicate 36 "0".toList ++ ["2147483648".toList]).get? 36 =
        some (int_text 2147483648) ∧
      parse_processor_from_rest
        (join_sp (List.replicate 36 "0".toList ++ ["2147483648".toList])) = -2147483648) ∧
    ((List.replicate 36 "0".toList ++ ["99999999999999999999".toList]).get? 36 =
        some (int_text 99999999999999999999) ∧
      parse_processor_from_rest
        (join_sp (List.replicate 36 "0".toList ++ ["99999999999999999999".toList])) = -1) := by
  decide

/-- C5 (amended): for a remainder made of non-empty tokens separated by exactly
one space whose token at zero-based index 36 is the decimal number `n`,
`parse_processor_from_rest` returns the result of `atoi`: `n` saturated to the
range of `long` and then reduced to the low 32 bits as an `int`, which is `n`
itself whenever `n` fits an `int`. It returns the unknown marker `-1` when the
remainder has 36 or fewer tokens; and a record with 13 well-formed leading
fields that is truncated before index 36 (at most 23 further tokens, then the
end of the line) is still parsed by `read_stat`, with `processor = -1`. -/
theorem parse_processor_index :
    (∀ (toks : List (List Char)) (n : Int),
      (∀ t ∈ toks, t ≠ [] ∧ ' ' ∉ t ∧ NUL ∉ t) → toks.get? 36 = some (int_text n) →
      parse_processor_from_rest (join_sp toks) =
          long_to_int (max LONG_MIN (min LONG_MAX n)) ∧
        (INT_MIN ≤ n → n ≤ INT_MAX → parse_processor_from_rest (join_sp toks) = n)) ∧
    (∀ (toks : List (List Char)),
      (∀ t ∈ toks, t ≠ [] ∧ ' ' ∉ t ∧ NUL ∉ t) → toks.length ≤ 36 →
      parse_processor_from_rest (join_sp toks) = -1) ∧
    (∀ (pid : Nat) (comm : List Char) (f : StatFields) (extra : List (List Char))
      (nl : List Char),
      (∀ c ∈ comm, c ≠ '\n' ∧ c ≠ NUL) → (f.state ≠ '\n' ∧ f.state ≠ NUL ∧ f.state ≠ ')') →
      (∀ tok ∈ extra, ∀ c ∈ tok, c ≠ '\n' ∧ c ≠ NUL ∧ c ≠ ')' ∧ c ≠ ' ') →
      extra.length ≤ 23 → (nl = [] ∨ nl = ['\n']) →
        ∃ st, read_stat (record_line pid comm f.state (f.tokens ++ extra) nl) = .ok st ∧
          st.state = f.state ∧ st.processor = -1) := by
  refine ⟨?_, ?_, ?_⟩
  · intro toks n htoks hget
    have hj : cstr (join_sp toks) = join_sp toks :=
      cstr_eq_self _ (join_sp_no_nul toks (fun t ht => (htoks t ht).2.2))
    have hres : parse_processor_from_rest (join_sp toks) = atoi (int_text n) := by
      unfold parse_processor_from_rest
      rw [hj, strtok_all_join toks (fun t ht => ⟨(htoks t ht).1, (htoks t ht).2.1⟩),
        processor_loop_get toks 0 (by omega), Nat.sub_zero, hget]
      rfl
    refine ⟨hres.trans (atoi_int_text_sat n), fun h1 h2 => hres.trans (atoi_int_text n h1 h2)⟩
  · intro toks htoks hlen
    have hj : cstr (join_sp toks) = join_sp toks :=
      cstr_eq_self _ (join_sp_no_nul toks (fun t ht => (htoks t ht).2.2))
    unfold parse_processor_from_rest
    rw [hj, strtok_all_join toks (fun t ht => ⟨(htoks t ht).1, (htoks t ht).2.1⟩)]
    exact processor_loop_short toks hlen
  · intro pid comm f extra nl hcomm hstate hextra hlen hnl
    exact read_stat_truncated pid comm f extra nl hcomm hstate hextra hlen hnl

set_option maxRecDepth 4000 in
/-- Witness for C5 (amended): 36 tokens `0` followed by `3` give 3, and followed
by `4294967299` give the low 32 bits of that number, 3 again; 36 tokens alone
give `-1`; the record `7 (sh) S 1 7 7 0 -1 0 0 0 0 0 5 6 20 0` with a newline
is parsed with `processor = -1`. -/
theorem parse_processor_index_witness :
    parse_processor_from_rest (join_sp (List.replicate 36 ['0'] ++ [['3']])) = 3 ∧
    parse_processor_from_rest
      (join_sp (List.replicate 36 ['0'] ++ [int_text 4294967299])) =
        long_to_int (max LONG_MIN (min LONG_MAX 4294967299)) ∧
    long_to_int (max LONG_MIN (min LONG_MAX 4294967299)) = 3 ∧
    parse_processor_from_rest (join_sp (List.replicate 36 ['0'])) = -1 ∧
    ∃ st, read_stat (record_line 7 "sh".toList 'S'
        ((⟨'S', 1, 7, 7, 0, -1, 0, 0, 0, 0, 0, 5, 6⟩ : StatFields).tokens ++
          ["20".toList, "0".toList]) ['\n']) = .ok st ∧
      st.state = 'S' ∧ st.processor = -1 :=
  ⟨(parse_processor_index.1 (List.replicate 36 ['0'] ++ [['3']]) 3
      (by decide) (by decide)).2 (by decide) (by decide),
    (parse_processor_index.1 (List.replicate 36 ['0'] ++ [int_text 4294967299]) 4294967299
      (by decide) (by decide)).1,
    by decide,
    parse_processor_index.2.1 (List.replicate 36 ['0']) (by decide) (by decide),
    parse_processor_index.2.2 7 "sh".toList ⟨'S', 1, 7, 7, 0, -1, 0, 0, 0, 0, 0, 5, 6⟩
      ["20".toList, "0".toList] ['\n'] (by decide) (by decide) (by decide) (by decide)
      (by decide)⟩

set_option maxRecDepth 4000 in
/-- C6 (the code at the failing input): with the non-numeric token `abc` at
zero-based index 36 of the remainder, `parse_processor_from_rest` returns
`atoi("abc") = 0`, not the marker `-1` that it returns when the token is
missing; `read_stat` stores that 0 as the processor of a record it accepts, and
`main` reports processor 0. -/
theorem parse_processor_abc :
    (List.replicate 36 "0".toList ++ ["abc".toList]).get? 36 = some "abc".toList ∧
    parse_processor_from_rest (join_sp (List.replicate 36 "0".toList ++ ["abc".toList])) = 0 ∧
    parse_processor_from_rest (join_sp (List.replicate 36 "0".toList)) = -1 ∧
    read_stat (record_line 7 "sh".toList 'S'
        (List.replicate 35 "0".toList ++ ["abc".toList]) ['\n']) = .ok ⟨'S', 0, 0, 0, 0⟩ ∧
    ∃ r, main ["procinfo".toList, "7".toList]
        (proc_files "7".toList
          (record_line 7 "sh".toList 'S' (List.replicate 35 "0".toList ++ ["abc".toList])
            ['\n'])
          ['s', 'h', NUL] "VmRSS:\t 8 kB\n".toList 100) = .report r ∧
      r.processor = 0 := by
  have hread : read_stat (record_line 7 "sh".toList 'S'
      (List.replicate 35 "0".toList ++ ["abc".toList]) ['\n']) = .ok ⟨'S', 0, 0, 0, 0⟩ := by
    decide
  exact ⟨by decide, by decide, by decide, hread,
    _, main_report "procinfo".toList "7".toList _ _ ['s', 'h', NUL]
      "VmRSS:\t 8 kB\n".toList _ (by decide) rfl hread rfl rfl, rfl⟩


set_option maxRecDepth 4000 in
/-- C7 (as stated, refuted): the digit run is converted by `strtol`, which
saturates. For the status text `VmRSS:\t99999999999999999999 kB` the result is
`LONG_MAX = 9223372036854775807`, not the value 99999999999999999999 of the
digit run. -/
theorem read_vmrss_saturates :
    read_vmrss_kb "VmRSS:\t99999999999999999999 kB\n".toList = 9223372036854775807 ∧
    Nat.ofDigits 10 (("99999999999999999999".toList.map (fun c => c.toNat - 48)).reverse) =
      99999999999999999999 ∧
    (9223372036854775807 : Int) ≠ 99999999999999999999 := by
  refine ⟨by decide, by decide, by decide⟩

/-- C7 (amended): `read_vmrss_kb` returns `-1` (none) when no line of the status
text starts with `VmRSS:`; and when some line does and the first such line, as
the C string read by `getline`, holds a digit after the key, it returns the
value of the first run of decimal digits on that line, capped at
`LONG_MAX = 2^63 - 1` (the result of `strtol`), whatever lines precede it
without starting with the key and whatever lines follow it. -/
theorem read_vmrss_first_match :
    (∀ text : List Char, (∀ buf ∈ getlines text, buf.take 6 ≠ "VmRSS:".toList) →
      read_vmrss_kb text = -1) ∧
    (∀ (text : List Char) (before : List (List Char)) (buf : List Char)
      (after : List (List Char)) (junk ds r : List Char),
      getlines text = before ++ buf :: after →
      (∀ b ∈ before, b.take 6 ≠ "VmRSS:".toList) →
      cstr buf = "VmRSS:".toList ++ (junk ++ (ds ++ r)) →
      (∀ c ∈ junk, isdigit c = false) → ds ≠ [] → (∀ c ∈ ds, isdigit c = true) →
      no_digit_head r →
        read_vmrss_kb text =
          min LONG_MAX
            (Nat.ofDigits 10 ((ds.map (fun c => c.toNat - 48)).reverse) : Nat)) := by
  refine ⟨?_, ?_⟩
  · intro text hno
    exact vmrss_none text hno
  · intro text before buf after junk ds r hg hbefore hline hjunk hne hds hr
    exact vmrss_value text before buf after junk ds r hg hbefore hline hjunk hne hds hr

/-- Witness for C7 (amended): a text with another key, a line holding `VmRSS:`
away from its start, the first `VmRSS:` line and a later one. -/
theorem read_vmrss_first_match_witness :
    read_vmrss_kb "Name:\tsh\n".toList = -1 ∧
    read_vmrss_kb "Name:\tsh\n VmRSS: 1 kB\nVmRSS:\t  1234 kB\nVmRSS: 5 kB\n".toList = 1234 :=
  ⟨read_vmrss_first_match.1 "Name:\tsh\n".toList (by decide),
    (read_vmrss_first_match.2
      "Name:\tsh\n VmRSS: 1 kB\nVmRSS:\t  1234 kB\nVmRSS: 5 kB\n".toList
      ["Name:\tsh\n".toList, " VmRSS: 1 kB\n".toList] "VmRSS:\t  1234 kB\n".toList
      ["VmRSS: 5 kB\n".toList] "\t  ".toList "1234".toList " kB\n".toList
      (by decide) (by decide) (by decide) (by decide) (by decide) (by decide)
      (by decide)).trans (by decide)⟩

/-- C8 (as stated, refuted): the first line that starts with `VmRSS:` carries no
digit and a later one carries the number 5; the result is `-1`, not 5. -/
theorem read_vmrss_later_line :
    read_vmrss_kb "VmRSS:\t kB\nVmRSS:\t 5 kB\n".toList = -1 := by
  decide

/-- C8 (amended): `read_vmrss_kb` consults only the first line that starts with
`VmRSS:`. It returns `-1` (none) if and only if no line starts with the key or
that first line, as the C string read by `getline`, holds no digit after the
key; and when that first line is followed by a number the result is that
number, capped at `LONG_MAX = 2^63 - 1` (the result of `strtol`), and not `-1`.
A number on a later `VmRSS:` line is never returned. -/
theorem read_vmrss_none_iff (text : List Char) :
    (read_vmrss_kb text = -1 ↔
      ((∀ buf ∈ getlines text, buf.take 6 ≠ "VmRSS:".toList) ∨
        ∃ before buf after, getlines text = before ++ buf :: after ∧
          (∀ b ∈ before, b.take 6 ≠ "VmRSS:".toList) ∧ buf.take 6 = "VmRSS:".toList ∧
          ∀ c ∈ (cstr buf).drop 6, isdigit c = false)) ∧
    (∀ (before : List (List Char)) (buf : List Char) (after : List (List Char))
      (junk ds r : List Char),
      getlines text = before ++ buf :: after →
      (∀ b ∈ before, b.take 6 ≠ "VmRSS:".toList) →
      cstr buf = "VmRSS:".toList ++ (junk ++ (ds ++ r)) →
      (∀ c ∈ junk, isdigit c = false) → ds ≠ [] → (∀ c ∈ ds, isdigit c = true) →
      no_digit_head r →
        read_vmrss_kb text =
            min LONG_MAX
              (Nat.ofDigits 10 ((ds.map (fun c => c.toNat - 48)).reverse) : Nat) ∧
          read_vmrss_kb text ≠ -1) := by
  refine ⟨?_, ?_⟩
  swap
  · intro before buf after junk ds r hg hbefore hline hjunk hne hds hr
    have hv := vmrss_value text before buf after junk ds r hg hbefore hline hjunk hne hds hr
    refine ⟨hv, ?_⟩
    rw [hv]
    have h1 : (0 : Int) ≤ LONG_MAX := by decide
    have h2 : (0 : Int) ≤
        ((Nat.ofDigits 10 ((ds.map (fun c => c.toNat - 48)).reverse) : Nat) : Int) :=
      Int.ofNat_nonneg _
    have h3 := le_min h1 h2
    omega
  have hat : ∀ (before : List (List Char)) (buf : List Char) (after : List (List Char)),
      getlines text = before ++ buf :: after →
      (∀ b ∈ before, b.take 6 ≠ "VmRSS:".toList) → buf.take 6 = "VmRSS:".toList →
      (read_vmrss_kb text = -1 ↔ ∀ c ∈ (cstr buf).drop 6, isdigit c = false) := by
    intro before buf after hg hb hk
    rw [read_vmrss_kb, hg, vmrss_skip before _ hb, vmrss_at buf after hk]
    cases hp : ((cstr buf).drop 6).dropWhile (fun c => !isdigit c) with
    | nil =>
      have hall := List.dropWhile_eq_nil_iff.mp hp
      simp only [List.isEmpty_nil, if_true, true_iff]
      intro c hc
      simpa using hall c hc
    | cons d t =>
      have hd : isdigit d = true := by
        have h := List.head?_dropWhile_not (fun c => !isdigit c) ((cstr buf).drop 6)
        rw [hp] at h
        simpa using h
      have hpos := strtol_digit_head d t hd
      have hmem : d ∈ (cstr buf).drop 6 :=
        (List.dropWhile_sublist _).subset (hp ▸ List.mem_cons_self _ _)
      simp only [List.isEmpty_cons, Bool.false_eq_true, if_false]
      constructor
      · intro h; omega
      · intro h
        rw [h d hmem] at hd
        exact absurd hd (by decide)
  constructor
  · intro h
    rcases first_match (fun b : List Char => b.take 6 = "VmRSS:".toList) (getlines text) with
      hno | ⟨before, buf, after, hg, hb, hk⟩
    · exact Or.inl hno
    · exact Or.inr ⟨before, buf, after, hg, hb, hk, (hat before buf after hg hb hk).mp h⟩
  · rintro (hno | ⟨before, buf, after, hg, hb, hk, hnd⟩)
    · exact vmrss_none text hno
    · exact (hat before buf after hg hb hk).mpr hnd

/-- Witness for C8 (amended): a first `VmRSS:` line without digits gives `-1`
although a later one holds 5; a first `VmRSS:` line with 1234 gives 1234
although a later one holds 5. -/
theorem read_vmrss_none_iff_witness :
    read_vmrss_kb "VmRSS:\t kB\nVmRSS:\t 5 kB\n".toList = -1 ∧
    read_vmrss_kb "Name:\tsh\nVmRSS:\t  1234 kB\nVmRSS: 5 kB\n".toList = 1234 ∧
    read_vmrss_kb "Name:\tsh\nVmRSS:\t  1234 kB\nVmRSS: 5 kB\n".toList ≠ -1 :=
  ⟨(read_vmrss_none_iff "VmRSS:\t kB\nVmRSS:\t 5 kB\n".toList).1.mpr
      (Or.inr ⟨[], "VmRSS:\t kB\n".toList, ["VmRSS:\t 5 kB\n".toList],
        by decide, by decide, by decide, by decide⟩),
    ((read_vmrss_none_iff "Name:\tsh\nVmRSS:\t  1234 kB\nVmRSS: 5 kB\n".toList).2
      ["Name:\tsh\n".toList] "VmRSS:\t  1234 kB\n".toList
      ["VmRSS: 5 kB\n".toList] "\t  ".toList "1234".toList " kB\n".toList
      (by decide) (by decide) (by decide) (by decide) (by decide) (by decide)
      (by decide)).1.trans (by decide),
    ((read_vmrss_none_iff "Name:\tsh\nVmRSS:\t  1234 kB\nVmRSS: 5 kB\n".toList).2
      ["Name:\tsh\n".toList] "VmRSS:\t  1234 kB\n".toList
      ["VmRSS: 5 kB\n".toList] "\t  ".toList "1234".toList " kB\n".toList
      (by decide) (by decide) (by decide) (by decide) (by decide) (by decide)
      (by decide)).2⟩


/-- C9: command-line normalisation in `read_cmdline`. The empty blob yields the
placeholder `(empty)` (in a buffer that can hold it, such as the caller's 4096
bytes); for every non-empty blob of at most `bufsz - 1` bytes the result is the
blob with every NUL byte replaced by a space and all trailing spaces removed;
and a blob with no NUL byte is returned verbatim apart from that trim. -/
theorem read_cmdline_normalises (blob : List Char) (bufsz : Nat) :
    (blob = [] → 8 ≤ bufsz → read_cmdline blob bufsz = "(empty)".toList) ∧
    (blob ≠ [] → blob.length ≤ bufsz - 1 →
      read_cmdline blob bufsz =
        (blob.map (fun c => if c = NUL then ' ' else c)).rdropWhile (fun c => c == ' ')) ∧
    (blob ≠ [] → blob.length ≤ bufsz - 1 → NUL ∉ blob →
      read_cmdline blob bufsz = blob.rdropWhile (fun c => c == ' ')) := by
  have hmain : blob ≠ [] → blob.length ≤ bufsz - 1 →
      read_cmdline blob bufsz =
        (blob.map (fun c => if c = NUL then ' ' else c)).rdropWhile (fun c => c == ' ') := by
    intro hne hlen
    have htake : blob.take (bufsz - 1) = blob := List.take_of_length_le hlen
    rw [read_cmdline_trim blob bufsz (by rw [htake]; exact hne), htake]
    rfl
  refine ⟨?_, hmain, ?_⟩
  · intro hb hsz
    subst hb
    rw [read_cmdline_placeholder [] bufsz (by simp)]
    exact List.take_of_length_le (by
      have : "(empty)".toList.length = 7 := rfl
      omega)
  · intro hne hlen hnul
    rw [hmain hne hlen]
    have : blob.map (fun c => if c = NUL then ' ' else c) = blob := by
      conv_rhs => rw [← List.map_id blob]
      apply List.map_congr_left
      intro c hc
      have : c ≠ NUL := fun e => hnul (e ▸ hc)
      simp [this]
    rw [this]

/-- Witness for C9: the empty blob, `a\0b\0` and `ls -l ` in the caller's buffer
of 4096 bytes. -/
theorem read_cmdline_normalises_witness :
    read_cmdline [] 4096 = "(empty)".toList ∧
    read_cmdline ['a', NUL, 'b', NUL] 4096 = "a b".toList ∧
    read_cmdline "ls -l ".toList 4096 = "ls -l".toList :=
  ⟨(read_cmdline_normalises [] 4096).1 rfl (by decide),
    ((read_cmdline_normalises ['a', NUL, 'b', NUL] 4096).2.1 (by decide) (by decide)).trans
      (by decide),
    ((read_cmdline_normalises "ls -l ".toList 4096).2.2 (by decide) (by decide)
      (by decide)).trans (by decide)⟩

end Procinfo

namespace Runwait

/-! ## Claims on the runner -/

/-- C11: termination classification in the runner's `main` is total and
exclusive over every wait status. `WIFEXITED` and `WIFSIGNALED` are never both
true, so exactly one of the three branches applies; in the exited branch the
reported code is `WEXITSTATUS` and lies in 0..255; in the signalled branch the
signal number, which lies in 1..127, is printed under `signal=` and no exit
code is printed; for any other status (such as a stopped child) the fallback
`exit=1` is printed. The line `main` prints carries that classification of the
child's wait status. -/
theorem classify_total (status : Int) :
    ¬ (WIFEXITED status = true ∧ WIFSIGNALED status = true) ∧
    (WIFEXITED status = true →
      classify status = .exit (WEXITSTATUS status) ∧
        0 ≤ WEXITSTATUS status ∧ WEXITSTATUS status ≤ 255) ∧
    (WIFSIGNALED status = true →
      classify status = .signal (WTERMSIG status) ∧
        1 ≤ WTERMSIG status ∧ WTERMSIG status ≤ 127) ∧
    (WIFEXITED status = false → WIFSIGNALED status = false → classify status = .exit 1) ∧
    (∀ (argv : List (List Char)) (sys : Sys) (t0 t1 : timespec) (pid : ℕ+),
      2 ≤ argv.length → sys.clock0 = some t0 → sys.fork = some pid →
      sys.waitpid_ok = true → sys.clock1 = some t1 → (child sys).2 = status →
        (main argv sys).stdout =
          some { pid := (pid : Int), elapsed := d t0 t1, tail := classify status }) := by
  have hexcl : ¬ (WIFEXITED status = true ∧ WIFSIGNALED status = true) := by
    simp only [WIFEXITED, WIFSIGNALED, WTERMSIG, to_schar, decide_eq_true_eq]
    omega
  refine ⟨hexcl, ?_, ?_, ?_, ?_⟩
  · intro he
    refine ⟨by simp [classify, he], ?_, ?_⟩ <;> (unfold WEXITSTATUS; omega)
  · intro hs
    have he : WIFEXITED status = false := by
      cases h : WIFEXITED status with
      | false => rfl
      | true => exact absurd ⟨h, hs⟩ hexcl
    refine ⟨by simp [classify, he, hs], ?_, ?_⟩
    · simp only [WIFEXITED, WTERMSIG, decide_eq_false_iff_not] at he
      unfold WTERMSIG
      omega
    · unfold WTERMSIG
      omega
  · intro he hs
    simp [classify, he, hs]
  · intro argv sys t0 t1 pid hargv h0 hf hw h1 hst
    have hlen : ¬ argv.length < 2 := by omega
    simp [main, hlen, h0, hf, hw, h1, hst]

/-- Witness for C11: a child that exits with code 42, a child killed by signal
9, a stopped child, and the line printed for the first of them. -/
theorem classify_total_witness :
    classify (exit_status 42) = .exit 42 ∧ classify 9 = .signal 9 ∧
    classify 0x137f = .exit 1 ∧
    (main ["runwait".toList, "ls".toList]
      { clock0 := some ⟨1, 5⟩, fork := some 7, exec_ok := true,
        command_status := exit_status 42, waitpid_ok := true, clock1 := some ⟨2, 3⟩ }).stdout =
      some { pid := 7, elapsed := d ⟨1, 5⟩ ⟨2, 3⟩, tail := .exit 42 } :=
  ⟨((classify_total (exit_status 42)).2.1 (by decide)).1,
    ((classify_total 9).2.2.1 (by decide)).1,
    (classify_total 0x137f).2.2.2.1 (by decide) (by decide),
    (classify_total (exit_status 42)).2.2.2.2 ["runwait".toList, "ls".toList]
      { clock0 := some ⟨1, 5⟩, fork := some 7, exec_ok := true,
        command_status := exit_status 42, waitpid_ok := true, clock1 := some ⟨2, 3⟩ }
      ⟨1, 5⟩ ⟨2, 3⟩ 7 (by decide) rfl rfl rfl rfl (by decide)⟩

/-- C12 (as stated, refuted): for the same child id and the same timestamps, the
runner prints the same line and returns the same status when `execvp` fails as
when the command runs and exits with code 127. -/
theorem exec_failure_same_report :
    (main ["runwait".toList, "nosuchcmd".toList]
        { clock0 := some ⟨1, 5⟩, fork := some 7, exec_ok := false, command_status := 0,
          waitpid_ok := true, clock1 := some ⟨2, 3⟩ }).stdout =
      (main ["runwait".toList, "nosuchcmd".toList]
        { clock0 := some ⟨1, 5⟩, fork := some 7, exec_ok := true,
          command_status := exit_status 127, waitpid_ok := true,
          clock1 := some ⟨2, 3⟩ }).stdout ∧
    (main ["runwait".toList, "nosuchcmd".toList]
        { clock0 := some ⟨1, 5⟩, fork := some 7, exec_ok := false, command_status := 0,
          waitpid_ok := true, clock1 := some ⟨2, 3⟩ }).status =
      (main ["runwait".toList, "nosuchcmd".toList]
        { clock0 := some ⟨1, 5⟩, fork := some 7, exec_ok := true,
          command_status := exit_status 127, waitpid_ok := true,
          clock1 := some ⟨2, 3⟩ }).status ∧
    (main ["runwait".toList, "nosuchcmd".toList]
        { clock0 := some ⟨1, 5⟩, fork := some 7, exec_ok := false, command_status := 0,
          waitpid_ok := true, clock1 := some ⟨2, 3⟩ }).stdout =
      some { pid := 7, elapsed := d ⟨1, 5⟩ ⟨2, 3⟩, tail := .exit 127 } :=
  ⟨rfl, rfl, rfl⟩

/-- C12 (amended): a command that cannot be executed is reported with the
reserved exit code 127. For every command line, child id and pair of
timestamps, the line on `stdout` and the runner's exit status when `execvp`
fails are the same as when the command runs and exits with code 127, and a
printed line ends in `exit=127`; the two runs differ only on `stderr`, where the
child of the failed `execvp` leaves the `perror("execvp")` diagnostic. -/
theorem exec_failure_report (argv : List (List Char)) (sys : Sys) :
    (main argv { sys with exec_ok := false }).stdout =
      (main argv { sys with exec_ok := true, command_status := exit_status 127 }).stdout ∧
    (main argv { sys with exec_ok := false }).status =
      (main argv { sys with exec_ok := true, command_status := exit_status 127 }).status ∧
    (∀ l, (main argv { sys with exec_ok := false }).stdout = some l → l.tail = .exit 127) ∧
    (2 ≤ argv.length → sys.clock0.isSome = true → sys.fork.isSome = true →
      "execvp".toList ∈ (main argv { sys with exec_ok := false }).stderr ∧
      "execvp".toList ∉
        (main argv { sys with exec_ok := true, command_status := exit_status 127 }).stderr) := by
  have h127 : classify (exit_status 127) = .exit 127 := by decide
  by_cases hlen : argv.length < 2
  · refine ⟨by simp [main, hlen], by simp [main, hlen], by simp [main, hlen], ?_⟩
    intro h; omega
  · cases h0 : sys.clock0 with
    | none =>
      refine ⟨by simp [main, hlen, h0], by simp [main, hlen, h0], by simp [main, hlen, h0], ?_⟩
      intro _ h; simp at h
    | some t0 =>
      cases hf : sys.fork with
      | none =>
        refine ⟨by simp [main, hlen, h0, hf], by simp [main, hlen, h0, hf],
          by simp [main, hlen, h0, hf], ?_⟩
        intro _ _ h; simp at h
      | some pid =>
        cases hw : sys.waitpid_ok with
        | false =>
          refine ⟨by simp [main, hlen, h0, hf, hw], by simp [main, hlen, h0, hf, hw],
            by simp [main, hlen, h0, hf, hw], ?_⟩
          intro _ _ _
          constructor
          · simp [main, hlen, h0, hf, hw, child]
          · simp [main, hlen, h0, hf, hw, child]
        | true =>
          cases h1 : sys.clock1 with
          | none =>
            refine ⟨by simp [main, hlen, h0, hf, hw, h1], by simp [main, hlen, h0, hf, hw, h1],
              by simp [main, hlen, h0, hf, hw, h1], ?_⟩
            intro _ _ _
            constructor
            · simp [main, hlen, h0, hf, hw, h1, child]
            · simp [main, hlen, h0, hf, hw, h1, child]
          | some t1 =>
            refine ⟨by simp [main, hlen, h0, hf, hw, h1, child],
              by simp [main, hlen, h0, hf, hw, h1], ?_, ?_⟩
            · intro l hl
              simp [main, hlen, h0, hf, hw, h1, child, h127] at hl
              rw [← hl]
            · intro _ _ _
              constructor
              · simp [main, hlen, h0, hf, hw, h1, child]
              · simp [main, hlen, h0, hf, hw, h1, child]

/-- Witness for C12 (amended): the command `nosuchcmd`, child id 7. -/
theorem exec_failure_report_witness :
    "execvp".toList ∈ (main ["runwait".toList, "nosuchcmd".toList]
        { clock0 := some ⟨1, 5⟩, fork := some 7, exec_ok := false, command_status := 0,
          waitpid_ok := true, clock1 := some ⟨2, 3⟩ }).stderr ∧
    "execvp".toList ∉ (main ["runwait".toList, "nosuchcmd".toList]
        { clock0 := some ⟨1, 5⟩, fork := some 7, exec_ok := true,
          command_status := exit_status 127, waitpid_ok := true,
          clock1 := some ⟨2, 3⟩ }).stderr :=
  (exec_failure_report ["runwait".toList, "nosuchcmd".toList]
    { clock0 := some ⟨1, 5⟩, fork := some 7, exec_ok := false, command_status := 0,
      waitpid_ok := true, clock1 := some ⟨2, 3⟩ }).2.2.2 (by decide) rfl rfl


/-- C13: the runner's own exit status reflects only its bookkeeping. `main`
returns 0 exactly when a command is given and both clock reads, `fork` and
`waitpid` succeed, whatever the wait status of the child is (any exit code, any
signal, any other shape, a failed `execvp`); it returns 1 exactly when no
command is given or one of those calls fails; it returns nothing else. -/
theorem main_status (argv : List (List Char)) (sys : Sys) :
    ((main argv sys).status = 0 ↔
      (2 ≤ argv.length ∧ sys.clock0.isSome = true ∧ sys.fork.isSome = true ∧
        sys.waitpid_ok = true ∧ sys.clock1.isSome = true)) ∧
    ((main argv sys).status = 1 ↔
      (argv.length < 2 ∨ sys.clock0 = none ∨ sys.fork = none ∨
        sys.waitpid_ok = false ∨ sys.clock1 = none)) ∧
    (∀ (ok : Bool) (st : Int),
      (main argv { sys with exec_ok := ok, command_status := st }).status =
        (main argv sys).status) := by
  by_cases hlen : argv.length < 2
  · have h2 : ¬ 2 ≤ argv.length := by omega
    simp [main, hlen, h2]
  · have h2 : 2 ≤ argv.length := by omega
    cases h0 : sys.clock0 with
    | none => simp [main, hlen, h0]
    | some t0 =>
      cases hf : sys.fork with
      | none => simp [main, hlen, h0, hf]
      | some pid =>
        cases hw : sys.waitpid_ok with
        | false => simp [main, hlen, h0, hf, hw]
        | true =>
          cases h1 : sys.clock1 with
          | none => simp [main, hlen, h0, hf, hw, h1]
          | some t1 => simp [main, hlen, h0, hf, hw, h1, h2]

/-- C14: elapsed time is the difference of the two timestamps in seconds and is
never negative. For timestamps of a monotonic clock (seconds that are not
negative and fit `time_t`, nanoseconds in `0 .. 10^9 - 1`) with `t1` not earlier
than `t0`, the exact value of `d(t0, t1)` is
`(t1.sec - t0.sec) + (t1.nsec - t0.nsec) / 10^9`, the difference of the two
timestamps in seconds, and it is at least 0, also when `t1.nsec < t0.nsec`. -/
theorem d_elapsed (t0 t1 : timespec)
    (h0 : 0 ≤ t0.tv_nsec ∧ t0.tv_nsec < 10 ^ 9) (h1 : 0 ≤ t1.tv_nsec ∧ t1.tv_nsec < 10 ^ 9)
    (hsec : 0 ≤ t0.tv_sec ∧ t1.tv_sec < 2 ^ 63) (hle : not_earlier t0 t1) :
    d t0 t1 = ((t1.tv_sec - t0.tv_sec : Int) : ℚ) + ((t1.tv_nsec - t0.tv_nsec : Int) : ℚ) / 10 ^ 9 ∧
    d t0 t1 = seconds t1 - seconds t0 ∧
    0 ≤ d t0 t1 := by
  have hs : wrap_long (t1.tv_sec - t0.tv_sec) = t1.tv_sec - t0.tv_sec := by
    unfold wrap_long
    rcases hle with h | ⟨h, _⟩ <;> omega
  have hn : wrap_long (t1.tv_nsec - t0.tv_nsec) = t1.tv_nsec - t0.tv_nsec := by
    unfold wrap_long
    omega
  have hd : d t0 t1 =
      ((t1.tv_sec - t0.tv_sec : Int) : ℚ) + ((t1.tv_nsec - t0.tv_nsec : Int) : ℚ) / 10 ^ 9 := by
    unfold d
    rw [hs, hn]
    norm_num
  refine ⟨hd, ?_, ?_⟩
  · rw [hd]
    unfold seconds
    push_cast
    ring
  · have hnum : (0 : Int) ≤ (t1.tv_sec - t0.tv_sec) * 10 ^ 9 + (t1.tv_nsec - t0.tv_nsec) := by
      rcases hle with h | ⟨h, h2⟩ <;> omega
    have hq : (0 : ℚ) ≤
        (((t1.tv_sec - t0.tv_sec) * 10 ^ 9 + (t1.tv_nsec - t0.tv_nsec) : Int) : ℚ) := by
      exact_mod_cast hnum
    rw [hd]
    have : ((t1.tv_sec - t0.tv_sec : Int) : ℚ) + ((t1.tv_nsec - t0.tv_nsec : Int) : ℚ) / 10 ^ 9 =
        (((t1.tv_sec - t0.tv_sec) * 10 ^ 9 + (t1.tv_nsec - t0.tv_nsec) : Int) : ℚ) / 10 ^ 9 := by
      push_cast
      field_simp
      norm_num
    rw [this]
    exact div_nonneg hq (by norm_num)

/-- Witness for C14: from 1.9 s to 2.1 s, with fewer nanoseconds in the second
timestamp, the elapsed time is 1/5 s. -/
theorem d_elapsed_witness :
    not_earlier ⟨1, 900000000⟩ ⟨2, 100000000⟩ ∧
    d ⟨1, 900000000⟩ ⟨2, 100000000⟩ =
      seconds ⟨2, 100000000⟩ - seconds ⟨1, 900000000⟩ ∧
    0 ≤ d ⟨1, 900000000⟩ ⟨2, 100000000⟩ :=
  ⟨by decide,
    (d_elapsed ⟨1, 900000000⟩ ⟨2, 100000000⟩ (by decide) (by decide) (by decide)
      (by decide)).2⟩

end Runwait

namespace Procinfo

/-! ## Claims on the report -/

set_option maxRecDepth 4000 in
/-- C15 (as stated, refuted): the reported CPU seconds are not always
`(utime + stime) / tick_rate`. The sum is taken in `unsigned long long`: with
`utime = 2^64 - 1` and `stime = 1` in the stat record and a tick rate of 100,
the reported value is 0, not `2^64 / 100`. And the quotient is computed in
`double`: with `utime = 2^64 - 1`, `stime = 0` and a tick rate of 100 it is
184467440737095520, not `(2^64 - 1) / 100`. -/
theorem cpu_seconds_wraps :
    (∃ r, main ["procinfo".toList, "1".toList]
        (proc_files "1".toList
          "1 (a) S 1 0 0 0 0 0 0 0 0 0 18446744073709551615 1\n".toList
          ['a', NUL] "VmRSS:\t 8 kB\n".toList 100) = .report r ∧
      r.cpu_sec = 0 ∧ ((18446744073709551615 + 1 : ℚ) / 100 ≠ 0)) ∧
    (cpu_seconds 18446744073709551615 0 100 = 184467440737095520 ∧
      ((18446744073709551615 + 0 : ℚ) / 100 ≠ 184467440737095520)) := by
  have hread : read_stat "1 (a) S 1 0 0 0 0 0 0 0 0 0 18446744073709551615 1\n".toList =
      .ok ⟨'S', 1, 18446744073709551615, 1, -1⟩ := by decide
  refine ⟨⟨_, main_report "procinfo".toList "1".toList _ _ ['a', NUL]
    "VmRSS:\t 8 kB\n".toList _ (by decide) rfl hread rfl rfl, ?_, by norm_num⟩,
    ?_, by norm_num⟩
  · have h0 : ((18446744073709551615 + 1) % 2 ^ 64 : Nat) = 0 := by norm_num
    simp only [cpu_seconds, proc_files, h0]
    norm_num [to_double_zero]
  · have hsum : ((18446744073709551615 + 0) % 2 ^ 64 : Nat) = 18446744073709551615 := by
      norm_num
    have hw : to_double ((18446744073709551615 : Nat) : ℚ) = 18446744073709551616 := by
      rw [to_double_pos _ 11 (by norm_num) (by norm_num) (by norm_num),
        round_even_eq _ 9007199254740992 (by norm_num [abs_lt])]
      norm_num
    have ht : to_double ((100 : Int) : ℚ) = 100 := by
      have := to_double_int 100 (by norm_num) (by norm_num)
      simpa using this
    have hq : to_double ((18446744073709551616 : ℚ) / 100) = 184467440737095520 := by
      rw [to_double_pos _ 5 (by norm_num) (by norm_num) (by norm_num),
        round_even_eq _ 5764607523034235 (by norm_num [abs_lt])]
      norm_num
    simp only [cpu_seconds, hsum]
    rw [if_pos (by norm_num), hw, ht, hq]

/-- C15 (amended): CPU-time derivation in `main`. Whenever the three files are
read and parsed, the run prints its report whatever the tick rate is. For
every `utime` and `stime` and every positive tick rate the reported CPU seconds
are the `double` quotient of the sum, taken modulo `2^64` and converted to
`double`, by the tick rate converted to `double`. When `utime + stime` and the
tick rate are below `2^53`, this is the `double` nearest to
`(utime + stime) / tick_rate`, within a relative error of `2^-53` of it. When
the tick rate is unavailable (`sysconf` result `<= 0`) the reported value
is 0. -/
theorem main_cpu_seconds (prog pid : List Char) (env : Env) (content blob text : List Char)
    (st : Stat) (hpid : isnum pid = true)
    (hstat : env.fopen (("/proc/".toList ++ cstr pid ++ "/stat".toList).take 255) = .ok content)
    (hread : read_stat content = .ok st)
    (hcmd : env.fopen (("/proc/".toList ++ cstr pid ++ "/cmdline".toList).take 255) = .ok blob)
    (hstatus : env.fopen (("/proc/".toList ++ cstr pid ++ "/status".toList).take 255) =
      .ok text) :
    ∃ r, main [prog, pid] env = .report r ∧ (Run.report r).status = 0 ∧
      (0 < env.clk_tck →
        r.cpu_sec =
          to_double (to_double (((st.utime + st.stime) % 2 ^ 64 : Nat) : ℚ) /
            to_double (env.clk_tck : ℚ))) ∧
      (0 < env.clk_tck → st.utime + st.stime < 2 ^ 53 → env.clk_tck < 2 ^ 53 →
        r.cpu_sec = to_double (((st.utime + st.stime : Nat) : ℚ) / (env.clk_tck : ℚ)) ∧
        |r.cpu_sec - ((st.utime + st.stime : Nat) : ℚ) / (env.clk_tck : ℚ)| ≤
          ((st.utime + st.stime : Nat) : ℚ) / (env.clk_tck : ℚ) / 2 ^ 53) ∧
      (env.clk_tck ≤ 0 → r.cpu_sec = 0) := by
  refine ⟨_, main_report prog pid env content blob text st hpid hstat hread hcmd hstatus, rfl,
    ?_, ?_, ?_⟩
  · intro hpos
    simp only [cpu_seconds, hpos, if_true]
  · intro hpos hsum hclk
    have hmod : (st.utime + st.stime) % 2 ^ 64 = st.utime + st.stime :=
      Nat.mod_eq_of_lt (lt_trans hsum (by norm_num))
    have hval : cpu_seconds st.utime st.stime env.clk_tck =
        to_double (((st.utime + st.stime : Nat) : ℚ) / (env.clk_tck : ℚ)) := by
      simp only [cpu_seconds, hpos, if_true, hmod]
      rw [to_double_nat _ hsum, to_double_int _ hpos hclk]
    refine ⟨hval, ?_⟩
    show |cpu_seconds st.utime st.stime env.clk_tck - _| ≤ _
    rw [hval]
    have htq : (0 : ℚ) < (env.clk_tck : ℚ) := by exact_mod_cast hpos
    by_cases h0 : st.utime + st.stime = 0
    · rw [h0]; simp [to_double_zero]
    · have hnq : (0 : ℚ) < ((st.utime + st.stime : Nat) : ℚ) := by
        exact_mod_cast Nat.pos_of_ne_zero h0
      exact to_double_error _ (div_pos hnq htq)
  · intro hneg
    have : ¬ 0 < env.clk_tck := not_lt.mpr hneg
    simp only [cpu_seconds, this, if_false]

/-- Witness for C15 (amended): 7 and 9 ticks at 100 ticks per second. -/
theorem main_cpu_seconds_witness :
    ∃ r, main ["procinfo".toList, "1".toList]
        (proc_files "1".toList "1 (a) S 1 0 0 0 0 0 0 0 0 0 7 9\n".toList
          ['a', NUL] "VmRSS:\t 8 kB\n".toList 100) = .report r ∧
      r.cpu_sec = to_double (((7 + 9 : Nat) : ℚ) / ((100 : Int) : ℚ)) ∧
      |r.cpu_sec - ((7 + 9 : Nat) : ℚ) / ((100 : Int) : ℚ)| ≤
        ((7 + 9 : Nat) : ℚ) / ((100 : Int) : ℚ) / 2 ^ 53 := by
  obtain ⟨r, hr, _, _, h, _⟩ := main_cpu_seconds "procinfo".toList "1".toList
    (proc_files "1".toList "1 (a) S 1 0 0 0 0 0 0 0 0 0 7 9\n".toList
      ['a', NUL] "VmRSS:\t 8 kB\n".toList 100)
    "1 (a) S 1 0 0 0 0 0 0 0 0 0 7 9\n".toList ['a', NUL] "VmRSS:\t 8 kB\n".toList
    ⟨'S', 1, 7, 9, -1⟩ (by decide) rfl (by decide) rfl rfl
  exact ⟨r, hr, h (by decide) (by decide) (by decide)⟩

/-- C16: `open_fail` maps the three causes of a failed open to distinguishable
diagnostics. For every path and every text of `strerror`, the message for
`ENOENT` ("PID not found"), the message for `EACCES` ("Permission denied") and
the message for any other `errno` ("Could not open") are pairwise different, and
each of the three cases ends the run with exit status 1. -/
theorem open_fail_messages (strerror : Nat → List Char) (path : List Char) (errno : Nat)
    (h1 : errno ≠ ENOENT) (h2 : errno ≠ EACCES) :
    (open_fail strerror path ENOENT).1 ≠ (open_fail strerror path EACCES).1 ∧
    (open_fail strerror path ENOENT).1 ≠ (open_fail strerror path errno).1 ∧
    (open_fail strerror path EACCES).1 ≠ (open_fail strerror path errno).1 ∧
    ((open_fail strerror path ENOENT).1.take 20 = "Error: PID not found".toList ∧
      (open_fail strerror path EACCES).1.take 24 = "Error: Permission denied".toList ∧
      (open_fail strerror path errno).1.take 21 = "Error: Could not open".toList) ∧
    ((open_fail strerror path ENOENT).2 = 1 ∧ (open_fail strerror path EACCES).2 = 1 ∧
      (open_fail strerror path errno).2 = 1) ∧
    (Run.failed path (.open_failed errno)).status = 1 := by
  have hne : EACCES ≠ ENOENT := by decide
  have m1 : (open_fail strerror path ENOENT).1 =
      "Error: PID not found (missing ".toList ++ cstr path ++ ")\n".toList := by
    simp [open_fail]
  have m2 : (open_fail strerror path EACCES).1 =
      "Error: Permission denied reading ".toList ++ cstr path ++ "\n".toList := by
    simp [open_fail, hne]
  have m3 : (open_fail strerror path errno).1 =
      "Error: Could not open ".toList ++ cstr path ++ ": ".toList ++
        cstr (strerror errno) ++ "\n".toList := by
    simp [open_fail, h1, h2]
  have g1 : (open_fail strerror path ENOENT).1.get? 8 = some 'I' := by rw [m1]; rfl
  have g2 : (open_fail strerror path EACCES).1.get? 8 = some 'e' := by rw [m2]; rfl
  have g3 : (open_fail strerror path errno).1.get? 7 = some 'C' := by rw [m3]; rfl
  have g1b : (open_fail strerror path ENOENT).1.get? 7 = some 'P' := by rw [m1]; rfl
  have g2b : (open_fail strerror path EACCES).1.get? 7 = some 'P' := by rw [m2]; rfl
  refine ⟨?_, ?_, ?_, ⟨?_, ?_, ?_⟩, ⟨rfl, rfl, rfl⟩, rfl⟩
  · intro h
    rw [h, g2] at g1
    exact absurd g1 (by decide)
  · intro h
    rw [h, g3] at g1b
    exact absurd g1b (by decide)
  · intro h
    rw [h, g3] at g2b
    exact absurd g2b (by decide)
  · rw [m1]; rfl
  · rw [m2]; rfl
  · rw [m3]; rfl

/-- Witness for C16: the path `/proc/42/stat` and `errno` 5 (`EIO`). -/
theorem open_fail_messages_witness :
    (5 ≠ ENOENT ∧ 5 ≠ EACCES) ∧
    (open_fail (fun _ => "Input/output error".toList) "/proc/42/stat".toList ENOENT).1 ≠
      (open_fail (fun _ => "Input/output error".toList) "/proc/42/stat".toList EACCES).1 ∧
    (open_fail (fun _ => "Input/output error".toList) "/proc/42/stat".toList ENOENT).1 ≠
      (open_fail (fun _ => "Input/output error".toList) "/proc/42/stat".toList 5).1 ∧
    (open_fail (fun _ => "Input/output error".toList) "/proc/42/stat".toList EACCES).1 ≠
      (open_fail (fun _ => "Input/output error".toList) "/proc/42/stat".toList 5).1 :=
  ⟨by decide,
    (open_fail_messages (fun _ => "Input/output error".toList) "/proc/42/stat".toList 5
      (by decide) (by decide)).1,
    (open_fail_messages (fun _ => "Input/output error".toList) "/proc/42/stat".toList 5
      (by decide) (by decide)).2.1,
    (open_fail_messages (fun _ => "Input/output error".toList) "/proc/42/stat".toList 5
      (by decide) (by decide)).2.2.1⟩


set_option maxRecDepth 4000 in
/-- C17 (as stated, refuted): with a leading space the two tokenisations part.
In ` 0 0 ... 0 7 8` (a space, 35 tokens `0`, then `7` and `8`) the lookup selects
`8`, its 37th non-empty token, while the element at index 36 of the split at
every single space is `7`, because the split starts with an empty element. -/
theorem processor_token_skips_empty :
    parse_processor_from_rest (' ' :: join_sp (List.replicate 35 ['0'] ++ [['7'], ['8']])) = 8 ∧
      (split_spaces (' ' :: join_sp (List.replicate 35 ['0'] ++ [['7'], ['8']]))).get? 36 =
        some ['7'] ∧
      atoi ['7'] = 7 := by
  decide

/-- C17 (amended): the processor lookup tokenises the remainder with `strtok_r`
on the space: for every remainder string, the tokens it walks are the non-empty
elements of the list obtained by splitting the remainder at every single space,
in order, and the token it selects is the one at zero-based index 36 of that
list of non-empty elements (`-1` when there is none); consecutive, leading and
trailing spaces add no token. When the split has no empty element, this is the
element at index 36 of the split itself. -/
theorem processor_token_of_split (rest : List Char) :
    strtok_all (cstr rest) = (split_spaces (cstr rest)).filter (fun t => !t.isEmpty) ∧
    parse_processor_from_rest rest =
      (((split_spaces (cstr rest)).filter (fun t => !t.isEmpty)).get? 36).elim (-1) atoi ∧
    ((∀ t ∈ split_spaces (cstr rest), t ≠ []) →
      parse_processor_from_rest rest = ((split_spaces (cstr rest)).get? 36).elim (-1) atoi) := by
  have h1 := strtok_all_split (cstr rest)
  have h2 : parse_processor_from_rest rest =
      (((split_spaces (cstr rest)).filter (fun t => !t.isEmpty)).get? 36).elim (-1) atoi := by
    unfold parse_processor_from_rest
    rw [processor_loop_get _ 0 (by omega), Nat.sub_zero, h1]
    cases ((split_spaces (cstr rest)).filter (fun t => !t.isEmpty)).get? 36 <;> rfl
  refine ⟨h1, h2, ?_⟩
  intro hall
  have hf : (split_spaces (cstr rest)).filter (fun t => !t.isEmpty) = split_spaces (cstr rest) := by
    apply List.filter_eq_self.mpr
    intro t ht
    have := hall t ht
    cases t with
    | nil => exact absurd rfl this
    | cons x r => rfl
  rw [h2, hf]

set_option maxRecDepth 4000 in
/-- Witness for C17 (amended): in `0 0 ... 0 7 8` without a leading space the
split has no empty element and its element 36 is selected. -/
theorem processor_token_of_split_witness :
    (∀ t ∈ split_spaces (cstr (join_sp (List.replicate 35 ['0'] ++ [['7'], ['8']]))), t ≠ []) ∧
    parse_processor_from_rest (join_sp (List.replicate 35 ['0'] ++ [['7'], ['8']])) =
      ((split_spaces (cstr (join_sp (List.replicate 35 ['0'] ++ [['7'], ['8']])))).get? 36).elim
        (-1) atoi :=
  ⟨by decide,
    (processor_token_of_split (join_sp (List.replicate 35 ['0'] ++ [['7'], ['8']]))).2.2
      (by decide)⟩

/-- C18: `read_cmdline` truncates silently at the capacity of the buffer. For
every blob longer than `bufsz - 1` bytes (4095 for the caller's buffer of 4096
bytes), the result equals the result for its first `bufsz - 1` bytes alone,
which, when at least one byte fits, is those bytes with NUL turned into a space
and the trailing spaces removed; so the output is never longer than
`bufsz - 1` and the terminating NUL is written inside the buffer. -/
theorem read_cmdline_truncates (blob : List Char) (bufsz : Nat) (hsz : 0 < bufsz)
    (hlong : bufsz - 1 < blob.length) :
    read_cmdline blob bufsz = read_cmdline (blob.take (bufsz - 1)) bufsz ∧
    (2 ≤ bufsz →
      read_cmdline blob bufsz =
        ((blob.take (bufsz - 1)).map (fun c => if c = NUL then ' ' else c)).rdropWhile
          (fun c => c == ' ')) ∧
    (read_cmdline blob bufsz).length ≤ bufsz - 1 ∧
    (read_cmdline blob bufsz).length < bufsz := by
  have hlen := read_cmdline_length blob bufsz
  refine ⟨?_, ?_, hlen, by omega⟩
  · simp only [read_cmdline, List.take_take, Nat.min_self]
  · intro h2
    have hne : blob.take (bufsz - 1) ≠ [] := by
      intro h
      have := congrArg List.length h
      rw [List.length_take] at this
      simp only [List.length_nil] at this
      omega
    rw [read_cmdline_trim blob bufsz hne]
    rfl

/-- Witness for C18: a blob of five bytes in a buffer of four keeps `a b`. -/
theorem read_cmdline_truncates_witness :
    read_cmdline ['a', NUL, 'b', NUL, 'c'] 4 = read_cmdline ['a', NUL, 'b'] 4 ∧
    read_cmdline ['a', NUL, 'b', NUL, 'c'] 4 = ['a', ' ', 'b'] ∧
    (read_cmdline ['a', NUL, 'b', NUL, 'c'] 4).length < 4 :=
  ⟨(read_cmdline_truncates ['a', NUL, 'b', NUL, 'c'] 4 (by decide) (by decide)).1,
    ((read_cmdline_truncates ['a', NUL, 'b', NUL, 'c'] 4 (by decide) (by decide)).2.1
      (by decide)).trans (by decide),
    (read_cmdline_truncates ['a', NUL, 'b', NUL, 'c'] 4 (by decide) (by decide)).2.2.2⟩


/-- C19: the report renders absent optional fields as the sentinel `-1` without
failing. For every stat record with 13 well-formed leading fields and no token
at index 36 (at most 23 further tokens, then the end of the line), every command
line blob and every status text without a line that starts with `VmRSS:`, `main`
exits with status 0 and prints the six lines `PID`, `State`, `PPID`, `Cmd`,
`CPU`, `VmRSS` in that order, with the processor index printed as `-1` and
`VmRSS` printed as `-1`. -/
theorem main_report_sentinels (prog pid : List Char) (env : Env) (rpid : Nat)
    (comm : List Char) (f : StatFields) (extra : List (List Char)) (nl blob text : List Char)
    (hpid : isnum pid = true)
    (hcomm : ∀ c ∈ comm, c ≠ '\n' ∧ c ≠ NUL)
    (hstate : f.state ≠ '\n' ∧ f.state ≠ NUL ∧ f.state ≠ ')')
    (hextra : ∀ tok ∈ extra, ∀ c ∈ tok, c ≠ '\n' ∧ c ≠ NUL ∧ c ≠ ')' ∧ c ≠ ' ')
    (hlen : extra.length ≤ 23) (hnl : nl = [] ∨ nl = ['\n'])
    (hstat : env.fopen (("/proc/".toList ++ cstr pid ++ "/stat".toList).take 255) =
      .ok (record_line rpid comm f.state (f.tokens ++ extra) nl))
    (hcmd : env.fopen (("/proc/".toList ++ cstr pid ++ "/cmdline".toList).take 255) = .ok blob)
    (hstatus : env.fopen (("/proc/".toList ++ cstr pid ++ "/status".toList).take 255) =
      .ok text)
    (hno : ∀ buf ∈ getlines text, buf.take 6 ≠ "VmRSS:".toList) :
    ∃ r, main [prog, pid] env = .report r ∧ (main [prog, pid] env).status = 0 ∧
      r.processor = -1 ∧ r.vmrss_kb = -1 ∧
      r.stdout =
        [[.text "PID: ".toList, .text (cstr pid)],
         [.text "State: ".toList, .text [f.state]],
         [.text "PPID: ".toList, .text (int_text r.ppid)],
         [.text "Cmd: ".toList, .text (read_cmdline blob 4096)],
         [.text "CPU: ".toList, .text "-1".toList, .text " ".toList, .fixed3 r.cpu_sec],
         [.text "VmRSS: ".toList, .text "-1".toList]] := by
  obtain ⟨st, hread, hst, hproc⟩ :=
    read_stat_truncated rpid comm f extra nl hcomm hstate hextra hlen hnl
  have hmain := main_report prog pid env _ blob text st hpid hstat hread hcmd hstatus
  have hrss : read_vmrss_kb text = -1 := vmrss_none text hno
  refine ⟨_, hmain, by rw [hmain]; rfl, hproc, hrss, ?_⟩
  simp only [Report.stdout, hproc, hrss, hst]
  rfl

/-- Witness for C19: the record `7 (sh) S 1 7 7 0 -1 0 0 0 0 0 5 6 20 0` and a
status text with only a `Name:` line. -/
theorem main_report_sentinels_witness :
    ∃ r, main ["procinfo".toList, "7".toList]
        (proc_files "7".toList
          (record_line 7 "sh".toList 'S'
            ((⟨'S', 1, 7, 7, 0, -1, 0, 0, 0, 0, 0, 5, 6⟩ : StatFields).tokens ++
              ["20".toList, "0".toList]) ['\n'])
          ['s', 'h', NUL] "Name:\tsh\n".toList 100) = .report r ∧
      r.processor = -1 ∧ r.vmrss_kb = -1 := by
  obtain ⟨r, hr, _, hp, hv, _⟩ := main_report_sentinels "procinfo".toList "7".toList
    (proc_files "7".toList
      (record_line 7 "sh".toList 'S'
        ((⟨'S', 1, 7, 7, 0, -1, 0, 0, 0, 0, 0, 5, 6⟩ : StatFields).tokens ++
          ["20".toList, "0".toList]) ['\n'])
      ['s', 'h', NUL] "Name:\tsh\n".toList 100)
    7 "sh".toList ⟨'S', 1, 7, 7, 0, -1, 0, 0, 0, 0, 0, 5, 6⟩ ["20".toList, "0".toList] ['\n']
    ['s', 'h', NUL] "Name:\tsh\n".toList
    (by decide) (by decide) (by decide) (by decide) (by decide) (by decide) rfl rfl rfl
    (by decide)
  exact ⟨r, hr, hp, hv⟩

/-- C20: for every non-empty blob that consists only of NUL and space bytes
(such as a single NUL), `read_cmdline` produces the empty string and not the
placeholder `(empty)`. The placeholder is produced if and only if zero bytes
were read: with no byte read the result is the placeholder, with bytes read it
is those bytes with NUL turned into a space and the trailing spaces removed;
and among the blobs of NUL and space bytes the result is `(empty)` exactly for
the empty blob. -/
theorem read_cmdline_blank (blob : List Char) (bufsz : Nat) (hsz : 8 ≤ bufsz) :
    ((∀ c ∈ blob, c = NUL ∨ c = ' ') → blob ≠ [] → read_cmdline blob bufsz = []) ∧
    ((∀ c ∈ blob, c = NUL ∨ c = ' ') →
      (read_cmdline blob bufsz = "(empty)".toList ↔ blob = [])) ∧
    (blob.take (bufsz - 1) = [] → read_cmdline blob bufsz = "(empty)".toList) ∧
    (blob.take (bufsz - 1) ≠ [] →
      read_cmdline blob bufsz =
        ((blob.take (bufsz - 1)).map (fun c => if c = NUL then ' ' else c)).rdropWhile
          (fun c => c == ' ')) := by
  have hzero : blob.take (bufsz - 1) = [] → read_cmdline blob bufsz = "(empty)".toList := by
    intro h
    rw [read_cmdline_placeholder blob bufsz h]
    exact List.take_of_length_le (by
      have : "(empty)".toList.length = 7 := rfl
      omega)
  have hread : blob.take (bufsz - 1) ≠ [] →
      read_cmdline blob bufsz =
        ((blob.take (bufsz - 1)).map (fun c => if c = NUL then ' ' else c)).rdropWhile
          (fun c => c == ' ') := by
    intro h
    rw [read_cmdline_trim blob bufsz h]
    rfl
  have hblank : (∀ c ∈ blob, c = NUL ∨ c = ' ') → blob ≠ [] → read_cmdline blob bufsz = [] := by
    intro hall hne
    have htake : blob.take (bufsz - 1) ≠ [] := by
      obtain ⟨x, t, rfl⟩ := List.exists_cons_of_ne_nil hne
      obtain ⟨k, hk⟩ : ∃ k, bufsz - 1 = k + 1 := ⟨bufsz - 2, by omega⟩
      rw [hk]
      simp
    rw [hread htake]
    apply List.rdropWhile_eq_nil_iff.mpr
    intro c hc
    obtain ⟨x, hx, rfl⟩ := List.mem_map.mp hc
    rcases hall x (List.mem_of_mem_take hx) with h | h
    · simp [h]
    · subst h
      have : ¬ (' ' = NUL) := by decide
      simp [this]
  refine ⟨hblank, ?_, hzero, hread⟩
  intro hall
  constructor
  · intro h
    by_contra hne
    rw [hblank hall hne] at h
    exact absurd h (by decide)
  · intro h
    subst h
    exact hzero (by simp)

/-- Witness for C20: a single NUL byte read into the caller's buffer. -/
theorem read_cmdline_blank_witness :
    read_cmdline [NUL] 4096 = [] ∧
    (read_cmdline [NUL] 4096 = "(empty)".toList ↔ [NUL] = []) ∧
    read_cmdline [] 4096 = "(empty)".toList :=
  ⟨(read_cmdline_blank [NUL] 4096 (by decide)).1 (by decide) (by decide),
    (read_cmdline_blank [NUL] 4096 (by decide)).2.1 (by decide),
    (read_cmdline_blank [] 4096 (by decide)).2.2.1 rfl⟩

end Procinfo
